import Mathlib

/-!
Verification of the time-discrete race simulator core.

The Rust sources are shallowly embedded: f64 values are modelled as
rationals (the claims under study concern exact control flow and algebra,
not rounding), Rust `panic!` is modelled by `Option.none`, and vectors are
Lean lists.  Definitions mirror `src/racesim/src/core/state_handler.rs`,
`src/racesim/src/core/race.rs`, `src/helpers/src/general.rs` and
`src/racesim/src/pre/check_sim_opts_pars.rs`.
-/

namespace RaceSim

/-- Flag states of the race (race.rs, enum FlagState). -/
inductive FlagState where
  | G
  | Y
  | Vsc
  | Sc
  | C
  deriving DecidableEq, Repr

/-- Statemachine states of a car (state_handler.rs, enum State). -/
inductive State where
  | Racestart
  | NormalZone
  | OvertakingZone
  | Pitlane
  | PitStandstill
  deriving DecidableEq, Repr

/-- Per-car state handler (state_handler.rs, struct StateHandler).
Overtaking zones are pairs (start, end); f64 fields are rationals. -/
structure StateHandler where
  use_drs : Bool
  turn1 : ℚ
  drs_measurement_points : List ℚ
  drs_window : ℚ
  overtaking_zones : List (ℚ × ℚ)
  pit_zone : ℚ × ℚ
  track_length : ℚ
  s_track_prev : ℚ
  s_track_cur : ℚ
  act_zone_idx : ℕ
  first_zone_info : ℕ × ℕ
  state : State
  t_standstill : ℚ
  t_standstill_target : ℚ
  in_drs_window : Bool
  start_act : Bool
  drs_act : Bool
  overtaking_act : Bool
  pit_act : Bool
  pit_standstill_act : Bool
  duel_act : Bool
  compl_lap_prev : ℕ
  compl_lap_cur : ℕ
  deriving DecidableEq, Repr

namespace StateHandler

/-- Default value (state_handler.rs, impl Default for StateHandler). -/
def default : StateHandler where
  use_drs := false
  turn1 := 0
  drs_measurement_points := []
  drs_window := 0
  overtaking_zones := []
  pit_zone := (0, 0)
  track_length := 0
  s_track_prev := 0
  s_track_cur := 0
  act_zone_idx := 0
  first_zone_info := (0, 0)
  state := State.Racestart
  t_standstill := 0
  t_standstill_target := 0
  in_drs_window := false
  start_act := true
  drs_act := false
  overtaking_act := true
  pit_act := false
  pit_standstill_act := false
  duel_act := false
  compl_lap_prev := 0
  compl_lap_cur := 0

/-- Access of one side of an overtaking zone: zone[0] is the start,
zone[1] the end, any other index panics in Rust (hence none). -/
def zoneSide (z : ℚ × ℚ) (j : ℕ) : Option ℚ :=
  if j = 0 then some z.1 else if j = 1 then some z.2 else none

/-- Fold determining the numerically smallest zone boundary, mirroring the
loop in initialize_state_handler; the accumulator holds the running
minimum (none encodes the f64::INFINITY start value) and the info pair. -/
def firstZoneFold (zones : List (ℚ × ℚ)) (info0 : ℕ × ℕ) : ℕ × ℕ :=
  (zones.enum.foldl
    (fun acc iz =>
      let step := fun (acc : Option ℚ × (ℕ × ℕ)) (j : ℕ) (s_tmp : ℚ) =>
        match acc.1 with
        | none => (some s_tmp, (iz.1, j))
        | some s_min => if s_tmp < s_min then (some s_tmp, (iz.1, j)) else acc
      step (step acc 0 iz.2.1) 1 iz.2.2)
    ((none : Option ℚ), info0)).2

/-- Embedding of initialize_state_handler (state_handler.rs). -/
def initialize_state_handler (sh : StateHandler) (use_drs : Bool) (turn1 : ℚ)
    (drs_window : ℚ) (s_track_start : ℚ) (track_length : ℚ)
    (drs_measurement_points : List ℚ) (pit_zone : ℚ × ℚ)
    (overtaking_zones : List (ℚ × ℚ)) : StateHandler :=
  { sh with
    use_drs := use_drs
    turn1 := turn1
    drs_measurement_points := drs_measurement_points
    drs_window := drs_window
    overtaking_zones := overtaking_zones
    pit_zone := pit_zone
    track_length := track_length
    s_track_prev := s_track_start
    s_track_cur := s_track_start
    first_zone_info := firstZoneFold overtaking_zones sh.first_zone_info }

/-- Embedding of get_new_lap (state_handler.rs). -/
def get_new_lap (sh : StateHandler) : Bool :=
  decide (sh.compl_lap_cur > sh.compl_lap_prev)

/-- Embedding of get_s_track_passed_this_step (state_handler.rs). -/
def get_s_track_passed_this_step (sh : StateHandler) (s_track : ℚ) : Bool :=
  ((decide (sh.s_track_prev < s_track) || sh.get_new_lap)
      && decide (s_track ≤ sh.s_track_cur))
    || (decide (sh.s_track_prev < s_track)
      && (decide (s_track ≤ sh.s_track_cur) || sh.get_new_lap))

/-- Embedding of get_lap_fracs (state_handler.rs).  Note the source really
computes (s_track_cur + s_track_cur) / track_length on the negative branch
of the current coordinate. -/
def get_lap_fracs (sh : StateHandler) : ℚ × ℚ :=
  let lap_frac_prev :=
    if sh.s_track_prev < 0 then (sh.s_track_prev + sh.track_length) / sh.track_length
    else sh.s_track_prev / sh.track_length
  let lap_frac_cur :=
    if sh.s_track_cur < 0 then (sh.s_track_cur + sh.s_track_cur) / sh.track_length
    else sh.s_track_cur / sh.track_length
  (lap_frac_prev, lap_frac_cur)

/-- Embedding of get_s_tracks (state_handler.rs).  Note the source really
computes s_track_cur + s_track_cur on the negative branch of the current
coordinate. -/
def get_s_tracks (sh : StateHandler) : ℚ × ℚ :=
  let s_track_prev :=
    if sh.s_track_prev < 0 then sh.s_track_prev + sh.track_length
    else sh.s_track_prev
  let s_track_cur :=
    if sh.s_track_cur < 0 then sh.s_track_cur + sh.s_track_cur
    else sh.s_track_cur
  (s_track_prev, s_track_cur)

/-- Embedding of get_compl_lap (state_handler.rs). -/
def get_compl_lap (sh : StateHandler) : ℕ := sh.compl_lap_cur

/-- Embedding of get_race_prog (state_handler.rs). -/
def get_race_prog (sh : StateHandler) : ℚ :=
  (sh.compl_lap_cur : ℚ) + sh.s_track_cur / sh.track_length

/-- One iteration step of the boundary walk in get_act_state_and_zone,
driven by explicit fuel: the Rust loop revisits its start position after at
most 2·(number of zones) increments, so the fuel below never runs out on
inputs the Rust code terminates on; exhausted fuel yields none, as does any
out-of-range zone access (a Rust panic). -/
def actZoneWalk (sh : StateHandler) : ℕ → ℕ × ℕ → Option (ℕ × ℕ)
  | 0, _ => none
  | fuel + 1, (tmp_zone_idx, tmp_side_idx) => do
    let z ← sh.overtaking_zones.get? tmp_zone_idx
    let b ← zoneSide z tmp_side_idx
    if sh.s_track_cur < b then
      some (tmp_zone_idx, tmp_side_idx)
    else
      if sh.overtaking_zones.length = 0 then none
      else
        let tmp_side_idx2 := (tmp_side_idx + 1) % 2
        let tmp_zone_idx2 :=
          if tmp_side_idx2 = 0 then (tmp_zone_idx + 1) % sh.overtaking_zones.length
          else tmp_zone_idx
        if tmp_zone_idx2 = sh.first_zone_info.1 ∧ tmp_side_idx2 = sh.first_zone_info.2 then
          some (tmp_zone_idx2, tmp_side_idx2)
        else
          actZoneWalk sh fuel (tmp_zone_idx2, tmp_side_idx2)

/-- Embedding of get_act_state_and_zone (state_handler.rs); none encodes a
panic of the Rust original (possible when the zone list is empty or the
stored indices are out of range). -/
def get_act_state_and_zone (sh : StateHandler) : Option (State × ℕ) := do
  let (tmp_zone_idx, tmp_side_idx) ←
    actZoneWalk sh (2 * sh.overtaking_zones.length + 1) sh.first_zone_info
  let act_state := if tmp_side_idx = 0 then State.NormalZone else State.OvertakingZone
  some (act_state, tmp_zone_idx)

/-- Embedding of act_pit_standstill (state_handler.rs); none is the panic
on entering the standstill from a state other than Pitlane. -/
def act_pit_standstill (sh : StateHandler) (t_standstill t_standstill_target : ℚ) :
    Option StateHandler :=
  if sh.state ≠ State.Pitlane then none
  else some { sh with
    state := State.PitStandstill
    pit_standstill_act := true
    t_standstill := t_standstill
    t_standstill_target := t_standstill_target }

/-- Embedding of deact_pit_standstill (state_handler.rs); none is the panic
on leaving the standstill from a state other than PitStandstill. -/
def deact_pit_standstill (sh : StateHandler) : Option StateHandler :=
  if sh.state ≠ State.PitStandstill then none
  else some { sh with
    state := State.Pitlane
    pit_standstill_act := false
    t_standstill := 0
    t_standstill_target := 0 }

/-- Embedding of increment_t_standstill (state_handler.rs); none is the
panic outside the PitStandstill state. -/
def increment_t_standstill (sh : StateHandler) (timestep_size : ℚ) : Option StateHandler :=
  if sh.state ≠ State.PitStandstill then none
  else some { sh with t_standstill := sh.t_standstill + timestep_size }

/-- Embedding of check_leaves_standstill (state_handler.rs); the outer
Option is the panic outside the PitStandstill state, the inner Option is
the return value of the Rust method. -/
def check_leaves_standstill (sh : StateHandler) (timestep_size : ℚ) : Option (Option ℚ) :=
  if sh.state ≠ State.PitStandstill then none
  else if sh.t_standstill + timestep_size ≤ sh.t_standstill_target then
    some none
  else
    some (some (sh.t_standstill + timestep_size - sh.t_standstill_target))

/-- Embedding of set_s_track (state_handler.rs); none is the panic on an
argument outside [0, track_length). -/
def set_s_track (sh : StateHandler) (s_track_cur : ℚ) : Option StateHandler :=
  if ¬(0 ≤ s_track_cur ∧ s_track_cur < sh.track_length) then none
  else some { sh with s_track_cur := s_track_cur }

/-- Embedding of update_race_prog (state_handler.rs). -/
def update_race_prog (sh : StateHandler) (cur_laptime timestep_size : ℚ) : StateHandler :=
  let sh := { sh with
    compl_lap_prev := sh.compl_lap_cur
    s_track_prev := sh.s_track_cur
    s_track_cur := sh.s_track_cur + timestep_size / cur_laptime * sh.track_length }
  if sh.s_track_cur ≥ sh.track_length then
    { sh with
      compl_lap_cur := sh.compl_lap_cur + 1
      s_track_cur := sh.s_track_cur - sh.track_length }
  else sh

/-- Embedding of check_state_transition (state_handler.rs); none encodes a
panic (out-of-range indexing of drs_measurement_points or
overtaking_zones, or an empty zone list). -/
def check_state_transition (sh : StateHandler) (delta_t_front delta_t_rear : ℚ)
    (pit_this_lap lapping_front lapping_rear : Bool) (flag_state : FlagState)
    (cur_lap_leader drs_allowed_lap : ℕ) : Option StateHandler :=
  match sh.state with
  | State.Racestart =>
      if sh.get_s_track_passed_this_step sh.turn1 then do
        let (state, act_zone_idx) ← sh.get_act_state_and_zone
        some { sh with
          state := state
          act_zone_idx := act_zone_idx
          start_act := false
          overtaking_act := false }
      else some sh
  | State.NormalZone => do
      let mp ← sh.drs_measurement_points.get? sh.act_zone_idx
      let sh :=
        if sh.get_s_track_passed_this_step mp ∧ delta_t_front ≤ sh.drs_window then
          { sh with in_drs_window := true }
        else sh
      if pit_this_lap ∧ sh.get_s_track_passed_this_step sh.pit_zone.1 then
        some { sh with
          state := State.Pitlane
          pit_act := true
          in_drs_window := false }
      else do
        let z ← sh.overtaking_zones.get? sh.act_zone_idx
        if sh.get_s_track_passed_this_step z.1 then
          let sh :=
            if ¬(flag_state = FlagState.Vsc ∨ flag_state = FlagState.Sc) then
              let sh := { sh with overtaking_act := true }
              let sh :=
                if sh.use_drs ∧ cur_lap_leader ≥ drs_allowed_lap ∧ sh.in_drs_window then
                  { sh with drs_act := true }
                else sh
              if (delta_t_front ≤ sh.drs_window ∧ ¬lapping_front)
                  ∨ (delta_t_rear ≤ sh.drs_window ∧ ¬lapping_rear) then
                { sh with duel_act := true }
              else sh
            else sh
          some { sh with state := State.OvertakingZone, in_drs_window := false }
        else some sh
  | State.OvertakingZone =>
      if pit_this_lap ∧ sh.get_s_track_passed_this_step sh.pit_zone.1 then
        some { sh with
          state := State.Pitlane
          pit_act := true
          drs_act := false
          overtaking_act := false
          duel_act := false }
      else do
        let z ← sh.overtaking_zones.get? sh.act_zone_idx
        if sh.get_s_track_passed_this_step z.2
            ∨ flag_state = FlagState.Vsc ∨ flag_state = FlagState.Sc then
          if sh.overtaking_zones.length = 0 then none
          else some { sh with
            state := State.NormalZone
            act_zone_idx := (sh.act_zone_idx + 1) % sh.overtaking_zones.length
            drs_act := false
            overtaking_act := false
            duel_act := false }
        else some sh
  | State.Pitlane =>
      if sh.get_s_track_passed_this_step sh.pit_zone.2 then do
        let (state, act_zone_idx) ← sh.get_act_state_and_zone
        some { sh with
          state := state
          act_zone_idx := act_zone_idx
          pit_act := false }
      else some sh
  | State.PitStandstill => some sh

end StateHandler

/-- Successor of a boundary position (zone index, side index) in the walk
order used by get_act_state_and_zone, for a track with n overtaking
zones. -/
def zoneStep (n : ℕ) (p : ℕ × ℕ) : ℕ × ℕ :=
  let s2 := (p.2 + 1) % 2
  (if s2 = 0 then (p.1 + 1) % n else p.1, s2)

/-- Linear encoding of a boundary position: zones are visited start first,
end second, so position (i, j) is boundary number 2·i + j. -/
def encodePos (p : ℕ × ℕ) : ℕ := 2 * p.1 + p.2

/-- Validity of a boundary position for a track with n overtaking zones. -/
def ValidPos (n : ℕ) (p : ℕ × ℕ) : Prop := p.1 < n ∧ p.2 < 2

/-- Concrete state handler of a car 8 m behind the finish line on the grid
of a 1000 m track, as produced for grid position 2 with d_first_gridpos =
0 and d_per_gridpos = −8. -/
def c1Handler : StateHandler :=
  { StateHandler.default with
    s_track_prev := -8, s_track_cur := -8, track_length := 1000 }

/-- Concrete state handler on a 1000 m track with one overtaking zone that
wraps across the finish line (start 800 m, end 100 m), the car standing at
900 m, i.e. between the last zone boundary and the finish line.  The
numerically smallest boundary is the zone end at 100 m, so first_zone_info
becomes (0, 1). -/
def c2Handler : StateHandler :=
  StateHandler.default.initialize_state_handler false 0 0 900 1000 [] (0, 0)
    [(800, 100)]

/-- Simulation options (sim_opts.rs, struct SimOpts); only the fields
validated by check_sim_opts_pars are modelled. -/
structure SimOpts where
  debug : Bool
  gui : Bool
  no_sim_runs : ℕ
  realtime_factor : ℚ
  timestep_size : ℚ

/-- Track parameters (track.rs, struct TrackPars). -/
structure TrackPars where
  name : String
  t_q : ℚ
  t_gap_racepace : ℚ
  s_mass : ℚ
  t_drseffect : ℚ
  pit_speedlimit : ℚ
  t_loss_firstlap : ℚ
  d_per_gridpos : ℚ
  d_first_gridpos : ℚ
  length : ℚ
  real_length_pit_zone : ℚ
  s12 : ℚ
  s23 : ℚ
  drs_measurement_points : List ℚ
  turn_1 : ℚ
  pit_zone : ℚ × ℚ
  pits_aft_finishline : Bool
  overtaking_zones : List (ℚ × ℚ)

/-- Strategy entry of a car (car.rs, struct StrategyEntry). -/
structure StrategyEntry where
  inlap : ℕ
  tire_start_age : ℕ
  compound : String
  refuel_mass : ℚ
  driver_initials : String

/-- Car parameters (car.rs, struct CarPars); only the fields used by
check_sim_opts_pars are modelled. -/
structure CarPars where
  car_no : ℕ
  strategy : List StrategyEntry

/-- Simulation parameters (read_sim_pars.rs, struct SimPars); the car map
is modelled as the list of its values. -/
structure SimPars where
  track_pars : TrackPars
  car_pars_all : List CarPars

/-- Per-car strategy validation, mirroring the strategy loop of
check_sim_opts_pars (check_sim_opts_pars.rs): at least one entry, a valid
start entry (inlap 0, non-empty compound and driver, refuel mass 0 — the
source compares with ulps_eq, exact equality over the rationals), and
strictly increasing inlaps.  Returns false when the Rust loop would return
an InputValueError. -/
def carStrategyOk (cp : CarPars) : Bool :=
  match cp.strategy with
  | [] => false
  | e0 :: rest =>
    if e0.inlap ≠ 0 ∨ e0.compound.isEmpty ∨ e0.driver_initials.isEmpty
        ∨ e0.refuel_mass ≠ 0 then false
    else (List.zip (e0 :: rest) rest).all fun pq =>
      decide (pq.1.inlap < pq.2.inlap)

/-- Embedding of check_sim_opts_pars (check_sim_opts_pars.rs); true is Ok,
false is an InputValueError return. -/
def check_sim_opts_pars (sim_opts : SimOpts) (sim_pars : SimPars) : Bool :=
  if ¬(1 / 1000 ≤ sim_opts.timestep_size ∧ sim_opts.timestep_size ≤ 1) then false
  else if sim_opts.no_sim_runs < 1 then false
  else if sim_opts.gui ∧ sim_opts.no_sim_runs ≠ 1 then false
  else if sim_opts.gui
      ∧ ¬(1 / 10 ≤ sim_opts.realtime_factor ∧ sim_opts.realtime_factor ≤ 100) then false
  else if sim_pars.track_pars.s12 ≤ 0
      ∨ sim_pars.track_pars.length ≤ sim_pars.track_pars.s12 then false
  else if sim_pars.track_pars.s23 ≤ 0
      ∨ sim_pars.track_pars.length ≤ sim_pars.track_pars.s23 then false
  else if sim_pars.track_pars.drs_measurement_points.any
      (fun s => decide (s < 0 ∨ sim_pars.track_pars.length ≤ s)) then false
  else if (sim_pars.track_pars.pit_zone.1 < 0
        ∨ sim_pars.track_pars.length ≤ sim_pars.track_pars.pit_zone.1)
      ∨ (sim_pars.track_pars.pit_zone.2 < 0
        ∨ sim_pars.track_pars.length ≤ sim_pars.track_pars.pit_zone.2) then false
  else if sim_pars.track_pars.overtaking_zones.any
      (fun z => decide ((z.1 < 0 ∨ sim_pars.track_pars.length ≤ z.1)
        ∨ (z.2 < 0 ∨ sim_pars.track_pars.length ≤ z.2))) then false
  else sim_pars.car_pars_all.all carStrategyOk

/-- Concrete simulation options for the C10 scenario. -/
def c10Opts : SimOpts :=
  { debug := false, gui := false, no_sim_runs := 1, realtime_factor := 1,
    timestep_size := 1 / 5 }

/-- Concrete simulation parameters for the C10 scenario: a 1000 m track
with one overtaking zone but an empty list of DRS measurement points, and
one car with a valid one-entry strategy. -/
def c10Pars : SimPars :=
  { track_pars :=
    { name := "t", t_q := 90, t_gap_racepace := 2, s_mass := 1 / 100,
      t_drseffect := -1, pit_speedlimit := 20, t_loss_firstlap := 2,
      d_per_gridpos := -8, d_first_gridpos := 0, length := 1000,
      real_length_pit_zone := 60, s12 := 100, s23 := 200,
      drs_measurement_points := [], turn_1 := 50, pit_zone := (0, 50),
      pits_aft_finishline := true, overtaking_zones := [(800, 100)] }
    car_pars_all :=
    [{ car_no := 7,
       strategy := [{ inlap := 0, tire_start_age := 0, compound := "S",
                      refuel_mass := 0, driver_initials := "AB" }] }] }

/-- State handler of a car racing on the C10 track: initialized from the
c10Pars track data (drs window 1, grid start at 0 m) and advanced by one
1 s time step at a 10 s lap time, which carries it from 0 m to 100 m,
past turn 1 at 50 m. -/
def c10Handler : StateHandler :=
  (StateHandler.default.initialize_state_handler false
      c10Pars.track_pars.turn_1 1 0 c10Pars.track_pars.length
      c10Pars.track_pars.drs_measurement_points c10Pars.track_pars.pit_zone
      c10Pars.track_pars.overtaking_zones).update_race_prog 10 1

/-- External operations on a StateHandler, as listed in the specification:
the initializer, the race-progress update, the statemachine transition
check, the standstill control methods and the position setter. -/
inductive Op where
  | opInitialize (use_drs : Bool) (turn1 drs_window s_track_start track_length : ℚ)
      (drs_measurement_points : List ℚ) (pit_zone : ℚ × ℚ)
      (overtaking_zones : List (ℚ × ℚ))
  | opUpdateRaceProg (cur_laptime timestep_size : ℚ)
  | opCheckStateTransition (delta_t_front delta_t_rear : ℚ)
      (pit_this_lap lapping_front lapping_rear : Bool) (flag_state : FlagState)
      (cur_lap_leader drs_allowed_lap : ℕ)
  | opActPitStandstill (t_standstill t_standstill_target : ℚ)
  | opDeactPitStandstill
  | opIncrementTStandstill (timestep_size : ℚ)
  | opSetSTrack (s_track_cur : ℚ)

/-- Application of one operation; none encodes a panic of the Rust
original. -/
def applyOp (sh : StateHandler) : Op → Option StateHandler
  | Op.opInitialize a b c d e f g h => some (sh.initialize_state_handler a b c d e f g h)
  | Op.opUpdateRaceProg lt dt => some (sh.update_race_prog lt dt)
  | Op.opCheckStateTransition a b c d e f g h => sh.check_state_transition a b c d e f g h
  | Op.opActPitStandstill a b => sh.act_pit_standstill a b
  | Op.opDeactPitStandstill => sh.deact_pit_standstill
  | Op.opIncrementTStandstill dt => sh.increment_t_standstill dt
  | Op.opSetSTrack x => sh.set_s_track x

/-- Sequential application of a list of operations; the run aborts (none)
as soon as one operation panics. -/
def runOps (sh : StateHandler) : List Op → Option StateHandler
  | [] => some sh
  | op :: ops => (applyOp sh op).bind fun sh2 => runOps sh2 ops

/-- The claimed invariant: the standstill flag mirrors the PitStandstill
state, and an active DRS implies the OvertakingZone state. -/
def StateInv (sh : StateHandler) : Prop :=
  (sh.pit_standstill_act = true ↔ sh.state = State.PitStandstill)
    ∧ (sh.drs_act = true → sh.state = State.OvertakingZone)

/-- Model of an IEEE-754 double as used by race.rs: a rational value or
one of the three special values +inf (produced by f64::INFINITY for a car
standing in the pit), −inf and NaN (reachable through arithmetic on
infinities).  Rounding is not modelled; the claims under study concern
control flow and exact algebra. -/
inductive F where
  | fin : ℚ → F
  | inf : F
  | ninf : F
  | nan : F
  deriving DecidableEq, Repr

namespace F

/-- IEEE addition on the float model. -/
def add : F → F → F
  | fin a, fin b => fin (a + b)
  | nan, _ => nan
  | _, nan => nan
  | inf, ninf => nan
  | ninf, inf => nan
  | inf, _ => inf
  | _, inf => inf
  | ninf, _ => ninf
  | _, ninf => ninf

/-- IEEE subtraction on the float model. -/
def sub : F → F → F
  | fin a, fin b => fin (a - b)
  | nan, _ => nan
  | _, nan => nan
  | inf, inf => nan
  | ninf, ninf => nan
  | inf, _ => inf
  | _, inf => ninf
  | ninf, _ => ninf
  | _, ninf => inf

/-- IEEE multiplication on the float model (0 · ±inf = NaN). -/
def mul : F → F → F
  | fin a, fin b => fin (a * b)
  | nan, _ => nan
  | _, nan => nan
  | fin a, inf => if 0 < a then inf else if a < 0 then ninf else nan
  | inf, fin a => if 0 < a then inf else if a < 0 then ninf else nan
  | fin a, ninf => if 0 < a then ninf else if a < 0 then inf else nan
  | ninf, fin a => if 0 < a then ninf else if a < 0 then inf else nan
  | inf, inf => inf
  | inf, ninf => ninf
  | ninf, inf => ninf
  | ninf, ninf => inf

/-- IEEE division on the float model; finite / 0 follows the sign of the
numerator (0/0 = NaN), finite / ±inf is 0, inf / inf is NaN.  The sign of
a zero divisor is taken positive, matching the values race.rs can
produce. -/
def div : F → F → F
  | nan, _ => nan
  | _, nan => nan
  | fin a, fin b =>
      if b = 0 then (if 0 < a then inf else if a < 0 then ninf else nan)
      else fin (a / b)
  | fin _, inf => fin 0
  | fin _, ninf => fin 0
  | inf, fin b => if 0 ≤ b then inf else ninf
  | ninf, fin b => if 0 ≤ b then ninf else inf
  | inf, inf => nan
  | inf, ninf => nan
  | ninf, inf => nan
  | ninf, ninf => nan

/-- IEEE strict comparison; any comparison with NaN is false. -/
def blt : F → F → Bool
  | nan, _ => false
  | _, nan => false
  | fin a, fin b => decide (a < b)
  | fin _, inf => true
  | inf, _ => false
  | ninf, ninf => false
  | ninf, _ => true
  | _, ninf => false

/-- IEEE non-strict comparison; any comparison with NaN is false. -/
def ble : F → F → Bool
  | nan, _ => false
  | _, nan => false
  | fin a, fin b => decide (a ≤ b)
  | fin _, inf => true
  | fin _, ninf => false
  | inf, inf => true
  | inf, _ => false
  | ninf, _ => true

end F

/-- Track data as owned by the Race (track.rs, struct Track), restricted
to the fields read by the race methods modelled here. -/
structure Track where
  t_q : ℚ
  t_gap_racepace : ℚ
  t_drseffect : ℚ
  pit_speedlimit : ℚ
  t_loss_firstlap : ℚ
  length : ℚ
  real_length_pit_zone : ℚ
  track_length_pit_zone : ℚ
  turn_1_lap_frac : ℚ
  overtaking_zones_lap_frac : ℚ
  pits_aft_finishline : Bool

/-- Race state (race.rs, struct Race) as needed by calc_cur_laptimes and
its helpers.  A car is represented by its StateHandler, the only part of
the Car struct those methods read. -/
structure Race where
  timestep_size : ℚ
  tot_no_laps : ℕ
  min_t_dist : ℚ
  t_duel : ℚ
  flag_state : FlagState
  track : Track
  cur_th_laptimes : List ℚ
  cars_list : List StateHandler

/-- Embedding of get_min_laptime_flag_state (race.rs). -/
def get_min_laptime_flag_state (r : Race) : ℚ :=
  match r.flag_state with
  | FlagState.Y => (r.track.t_q + r.track.t_gap_racepace) * (11 / 10)
  | FlagState.Vsc => (r.track.t_q + r.track.t_gap_racepace) * (14 / 10)
  | FlagState.Sc => (r.track.t_q + r.track.t_gap_racepace) * (14 / 10)
  | _ => 0

/-- Embedding of argmax (helpers/general.rs) on float values: fold keeping
the current maximum, replacing it whenever it is not strictly greater than
the next value (so the last maximum wins; NaN comparisons are false).  The
Rust original reads x[0] and panics on an empty slice; the model returns
index 0 then. -/
def argmax (x : List F) : ℕ :=
  (x.enum.foldl
    (fun acc iv => if F.blt iv.2 acc.2 then acc else (iv.1, iv.2))
    (0, x.headD F.nan)).1

/-- Insertion of index i into an index list sorted by strictly descending
key, used to model argsort (helpers/general.rs).  Rust uses an unstable
sort; on pairwise distinct keys (the only case exercised here) any
comparison sort yields the same permutation. -/
def insertDescBy (key : ℕ → ℚ) (i : ℕ) : List ℕ → List ℕ
  | [] => [i]
  | j :: rest =>
      if key j < key i then i :: j :: rest else j :: insertDescBy key i rest

/-- Embedding of argsort with SortOrder::Descending (helpers/general.rs)
as an insertion sort on the index list. -/
def argsortDesc (key : ℕ → ℚ) (n : ℕ) : List ℕ :=
  (List.range n).foldr (insertDescBy key) []

/-- Embedding of get_car_order_on_track (race.rs): car indices sorted by
descending current s coordinate (via get_s_tracks). -/
def get_car_order_on_track (cars : List StateHandler) : List ℕ :=
  argsortDesc (fun i => ((cars.getD i StateHandler.default).get_s_tracks).2)
    cars.length

/-- Embedding of get_car_pair_idxs_list (race.rs): consecutive (front,
rear) pairs of the given index list, cyclically closed, with the last pair
removed when requested. -/
def get_car_pair_idxs_list (idxs : List ℕ) (del_last_pair : Bool) :
    List (ℕ × ℕ) :=
  let l := (List.range idxs.length).map
    (fun i => (idxs.getD i 0, idxs.getD ((i + 1) % idxs.length) 0))
  if del_last_pair then l.dropLast else l

/-- Embedding of calc_projected_delta_lap_frac (race.rs) over the float
model; cars are read through their state handlers and lap times through
the given cur_laptimes list. -/
def calc_projected_delta_lap_frac (cars : List StateHandler) (lts : List F)
    (idx_front idx_rear : ℕ) (timestep_size : ℚ) : F :=
  let lap_frac_cur_front :=
    F.add (F.fin ((cars.getD idx_front StateHandler.default).get_lap_fracs).2)
      (F.div (F.fin timestep_size) (lts.getD idx_front F.nan))
  let lap_frac_cur_rear :=
    F.add (F.fin ((cars.getD idx_rear StateHandler.default).get_lap_fracs).2)
      (F.div (F.fin timestep_size) (lts.getD idx_rear F.nan))
  let lap_frac_cur_front :=
    if F.ble (F.fin 1) lap_frac_cur_front then F.sub lap_frac_cur_front (F.fin 1)
    else lap_frac_cur_front
  let lap_frac_cur_rear :=
    if F.ble (F.fin 1) lap_frac_cur_rear then F.sub lap_frac_cur_rear (F.fin 1)
    else lap_frac_cur_rear
  if F.ble lap_frac_cur_rear lap_frac_cur_front then
    F.sub lap_frac_cur_front lap_frac_cur_rear
  else
    F.sub (F.add lap_frac_cur_front (F.fin 1)) lap_frac_cur_rear

/-- Embedding of calc_projected_delta_t (race.rs). -/
def calc_projected_delta_t (cars : List StateHandler) (lts : List F)
    (idx_front idx_rear : ℕ) (timestep_size : ℚ) : F :=
  F.mul (calc_projected_delta_lap_frac cars lts idx_front idx_rear timestep_size)
    (lts.getD idx_rear F.nan)

/-- Embedding of get_idx_list_sorted_by_biggest_gap (race.rs). -/
def get_idx_list_sorted_by_biggest_gap (cars : List StateHandler)
    (lts : List F) : List ℕ :=
  let idx_list_sorted := get_car_order_on_track cars
  let car_pair_idxs_list := get_car_pair_idxs_list idx_list_sorted false
  let delta_lap_fracs := car_pair_idxs_list.map
    (fun x => calc_projected_delta_lap_frac cars lts x.1 x.2 0)
  let start_idx := (argmax delta_lap_fracs + 1) % cars.length
  idx_list_sorted.rotateLeft start_idx

/-- One iteration of the minimum-following-distance correction loop of
calc_cur_laptimes (race.rs, lines 297-324) for the pair (front, rear). -/
def min_dist_correction_step (cars : List StateHandler) (min_t_dist : ℚ)
    (timestep_size : ℚ) (lts : List F) (pair : ℕ × ℕ) : List F :=
  let delta_t_proj := calc_projected_delta_t cars lts pair.1 pair.2 timestep_size
  if ¬(cars.getD pair.2 StateHandler.default).overtaking_act
      ∧ ¬(cars.getD pair.1 StateHandler.default).pit_act
      ∧ F.blt delta_t_proj (F.fin min_t_dist) then
    let delta_t_cur := calc_projected_delta_t cars lts pair.1 pair.2 0
    let t_gap_add :=
      F.mul (F.div (F.sub (F.fin min_t_dist) delta_t_cur) (F.fin 3))
        (lts.getD pair.2 F.nan)
    if F.blt (lts.getD pair.2 F.nan)
        (F.add (lts.getD pair.1 F.nan) t_gap_add) then
      lts.set pair.2 (F.add (lts.getD pair.1 F.nan) t_gap_add)
    else lts
  else lts

/-- The full minimum-following-distance correction pass of
calc_cur_laptimes (race.rs, lines 288-325): order the cars, build the
consecutive pairs (dropping the last one) and run the correction on each
pair in turn. -/
def min_dist_correction (cars : List StateHandler) (min_t_dist : ℚ)
    (timestep_size : ℚ) (lts : List F) : List F :=
  let idxs_sorted := get_idx_list_sorted_by_biggest_gap cars lts
  let car_pair_idxs_list := get_car_pair_idxs_list idxs_sorted true
  car_pair_idxs_list.foldl (min_dist_correction_step cars min_t_dist timestep_size)
    lts

/-- The per-car seeding part of calc_cur_laptimes (race.rs, lines
231-286): theoretical lap time plus start, duel and DRS modifiers, the
pit-lane overwrite (infinite when the car stays in standstill), and the
flag-state minimum for cars outside the pit; none is the panic of
check_leaves_standstill outside the PitStandstill state. -/
def seed_cur_laptime (r : Race) (i : ℕ) (car : StateHandler) : Option F := do
  let lt0 := F.fin (r.cur_th_laptimes.getD i 0)
  let lt1 := if car.start_act then
      F.add lt0 (F.fin (r.track.t_loss_firstlap / r.track.turn_1_lap_frac))
    else lt0
  let lt2 := if car.duel_act then
      F.add lt1 (F.fin (r.t_duel / r.track.overtaking_zones_lap_frac))
    else lt1
  let lt3 := if car.drs_act then
      F.add lt2 (F.fin (r.track.t_drseffect / r.track.overtaking_zones_lap_frac))
    else lt2
  let lt4 ←
    if car.pit_act then
      if ¬car.pit_standstill_act then
        some (F.fin (r.track.length / r.track.pit_speedlimit
          * r.track.real_length_pit_zone / r.track.track_length_pit_zone))
      else do
        match ← car.check_leaves_standstill r.timestep_size with
        | some t_driving =>
            some (F.fin (r.track.length / r.track.pit_speedlimit
              * r.track.real_length_pit_zone / r.track.track_length_pit_zone
              * r.timestep_size / t_driving))
        | none => some F.inf
    else some lt3
  if ¬car.pit_act ∧ F.blt lt4 (F.fin (get_min_laptime_flag_state r)) then
    some (F.fin (get_min_laptime_flag_state r))
  else some lt4

/-- Seeding loop of calc_cur_laptimes: seeds the k cars starting at index
s in ascending order, collecting the per-car lap times. -/
def seedFrom (r : Race) : ℕ → ℕ → Option (List F)
  | _, 0 => some []
  | s, k + 1 => do
    let v ← seed_cur_laptime r s (r.cars_list.getD s StateHandler.default)
    let rest ← seedFrom r (s + 1) k
    some (v :: rest)

/-- Embedding of calc_cur_laptimes (race.rs): seed every car, then run the
minimum-following-distance correction pass; none encodes a panic. -/
def calc_cur_laptimes (r : Race) : Option (List F) := do
  let seeded ← seedFrom r 0 r.cars_list.length
  some (min_dist_correction r.cars_list r.min_t_dist r.timestep_size seeded)

/-- Concrete one-car race under a yellow flag for exercising the
flag-state minimum: theoretical lap time 100 s, t_q = 90 s,
t_gap_racepace = 2 s, so the Yellow minimum is 101.2 s. -/
def c3Race : Race :=
  { timestep_size := 1 / 5, tot_no_laps := 3, min_t_dist := 1, t_duel := 1 / 2,
    flag_state := FlagState.Y,
    track :=
    { t_q := 90, t_gap_racepace := 2, t_drseffect := -1, pit_speedlimit := 20,
      t_loss_firstlap := 2, length := 1000, real_length_pit_zone := 60,
      track_length_pit_zone := 50, turn_1_lap_frac := 1 / 20,
      overtaking_zones_lap_frac := 3 / 10, pits_aft_finishline := true }
    cur_th_laptimes := [100]
    cars_list := [{ StateHandler.default with
      start_act := false, overtaking_act := false,
      s_track_prev := 500, s_track_cur := 500, track_length := 1000 }] }

/-- The two cars of the c7Race scenario: identical, 1 m apart (lap
fractions 0.501 and 0.500). -/
def c7Cars : List StateHandler :=
  [{ StateHandler.default with
      start_act := false, overtaking_act := false,
      s_track_prev := 501, s_track_cur := 501, track_length := 1000 },
    { StateHandler.default with
      start_act := false, overtaking_act := false,
      s_track_prev := 500, s_track_cur := 500, track_length := 1000 }]

/-- Concrete two-car race under a green flag for the idempotence question:
theoretical lap times 100 s, min_t_dist 1 s, time step 1 s. -/
def c7Race : Race :=
  { timestep_size := 1, tot_no_laps := 3, min_t_dist := 1, t_duel := 1 / 2,
    flag_state := FlagState.G,
    track :=
    { t_q := 90, t_gap_racepace := 2, t_drseffect := -1, pit_speedlimit := 20,
      t_loss_firstlap := 2, length := 1000, real_length_pit_zone := 60,
      track_length_pit_zone := 50, turn_1_lap_frac := 1 / 20,
      overtaking_zones_lap_frac := 3 / 10, pits_aft_finishline := true }
    cur_th_laptimes := [100, 100]
    cars_list := c7Cars }

/-- Per-tick external inputs of the lap-accounting model: the effective
lap time of each car for this tick (computed by calc_cur_laptimes in the
full engine) and the optional pit-location snaps of the two
handle_pit_standstill phases (set_s_track calls), which only move
s_track_cur. -/
structure TickIn where
  laptimes : List ℚ
  adjPre : List (Option ℚ)
  adjPost : List (Option ℚ)

/-- Race state for the lap-transition bookkeeping of race.rs: the lap and
race time tables and the finished flags are total maps (the Rust vectors
have fixed sizes car-count and tot_no_laps + 1 and are zero-initialized).
A car is represented by its StateHandler; tire, fuel and driver state do
not feed back into this bookkeeping. -/
structure RaceT where
  timestep_size : ℚ
  tot_no_laps : ℕ
  cur_racetime : ℚ
  cur_lap_leader : ℕ
  flag_state : FlagState
  race_finished : ℕ → Bool
  laptimes : ℕ → ℕ → ℚ
  racetimes : ℕ → ℕ → ℚ
  cars : List StateHandler

/-- Leader update loop of handle_lap_transitions (race.rs, lines
437-443). -/
def lapTransLeader (r : RaceT) : ℕ :=
  r.cars.foldl
    (fun ld c => if c.get_compl_lap ≥ ld then c.get_compl_lap + 1 else ld)
    r.cur_lap_leader

/-- Body of the per-car loop of handle_lap_transitions (race.rs, lines
450-490) for car i, without the tire/fuel/driver updates (drive_lap,
perform_pitstop, calc_th_laptime), which do not touch the modelled
fields. -/
def lapTransCar (cur_laptimes : List ℚ) (acc : RaceT) (i : ℕ) : RaceT :=
  let car := acc.cars.getD i StateHandler.default
  if car.get_new_lap then
    let lap_frac_prev := car.get_lap_fracs.1
    let t_part_old := (1 - lap_frac_prev) * cur_laptimes.getD i 0
    let compl_lap_cur := car.get_compl_lap
    let acc2 :=
      if compl_lap_cur ≤ acc.tot_no_laps then
        let newlap := acc.cur_racetime - acc.timestep_size + t_part_old
          - acc.racetimes i (compl_lap_cur - 1)
        { acc with
          laptimes := Function.update acc.laptimes i
            (Function.update (acc.laptimes i) compl_lap_cur newlap)
          racetimes := Function.update acc.racetimes i
            (Function.update (acc.racetimes i) compl_lap_cur
              (acc.racetimes i (compl_lap_cur - 1) + newlap)) }
      else acc
    if acc.flag_state = FlagState.C then
      { acc2 with race_finished := Function.update acc2.race_finished i true }
    else acc2
  else acc

/-- Embedding of handle_lap_transitions (race.rs): update the leader lap,
raise the chequered flag once the leader lap exceeds the race distance,
then run the per-car lap-transition loop. -/
def handle_lap_transitions (r : RaceT) (cur_laptimes : List ℚ) : RaceT :=
  let leader2 := lapTransLeader r
  let flag2 :=
    if leader2 > r.tot_no_laps ∧ ¬r.flag_state = FlagState.C then FlagState.C
    else r.flag_state
  (List.range r.cars.length).foldl (lapTransCar cur_laptimes)
    { r with cur_lap_leader := leader2, flag_state := flag2 }

/-- Effect of a handle_pit_standstill phase on the car positions: an
optional set_s_track to the pit location for each car (the non-panicking
branch of set_s_track; the standstill bookkeeping itself touches neither
the progress counters nor the time tables). -/
def adjustCars (cars : List StateHandler) (adj : List (Option ℚ)) :
    List StateHandler :=
  (List.range cars.length).map fun i =>
    let c := cars.getD i StateHandler.default
    match adj.getD i none with
    | some sv => if 0 ≤ sv ∧ sv < c.track_length then { c with s_track_cur := sv } else c
    | none => c

/-- Per-car update_race_prog loop of simulate_timestep (race.rs): every
car advances by its effective lap time for this tick. -/
def advanceCars (cars : List StateHandler) (lts : List ℚ) (dt : ℚ) :
    List StateHandler :=
  (List.range cars.length).map fun i =>
    (cars.getD i StateHandler.default).update_race_prog (lts.getD i 0) dt

/-- Embedding of simulate_timestep (race.rs) restricted to the fields of
RaceT: advance the clock, advance every car by its effective lap time,
apply the pre-finish-line pit snaps, handle the lap transitions, apply
the post-finish-line pit snaps.  The final handle_state_transitions phase
only changes statemachine fields, which do not feed back into this
bookkeeping, and is omitted. -/
def tickT (r : RaceT) (inp : TickIn) : RaceT :=
  let r2 := { r with
    cur_racetime := r.cur_racetime + r.timestep_size
    cars := adjustCars (advanceCars r.cars inp.laptimes r.timestep_size)
      inp.adjPre }
  let r3 := handle_lap_transitions r2 inp.laptimes
  { r3 with cars := adjustCars r3.cars inp.adjPost }

/-- Sequential execution of ticks. -/
def runTicksT (r : RaceT) (inputs : List TickIn) : RaceT :=
  inputs.foldl tickT r

/-- Initial race state as set up by Race::new (race.rs): race time zero,
leader on lap 1, green flag, zeroed time tables, no car finished, and each
car placed at its grid s coordinate. -/
def mkRaceT (dt : ℚ) (tot : ℕ) (starts : List ℚ) (track_length : ℚ) : RaceT :=
  { timestep_size := dt
    tot_no_laps := tot
    cur_racetime := 0
    cur_lap_leader := 1
    flag_state := FlagState.G
    race_finished := fun _ => false
    laptimes := fun _ _ => 0
    racetimes := fun _ _ => 0
    cars := starts.map fun s0 =>
      { StateHandler.default with
        s_track_prev := s0, s_track_cur := s0, track_length := track_length } }

/-- A car crosses the finish line within the tick: after the race-progress
advance and the pre-finish-line pit snaps its state handler reports a new
lap.  Only cars of the grid can cross. -/
def crossesLine (r : RaceT) (inp : TickIn) (i : ℕ) : Prop :=
  i < r.cars.length
  ∧ ((adjustCars (advanceCars r.cars inp.laptimes r.timestep_size)
      inp.adjPre).getD i StateHandler.default).get_new_lap = true

/-- Lap accounting invariant: entry 0 of each race-time row is zero, and
every recorded race time is the exact sum of the recorded lap times. -/
def AcctInv (r : RaceT) : Prop :=
  ∀ i, r.racetimes i 0 = 0
    ∧ ∀ k, 1 ≤ k → k ≤ r.tot_no_laps →
        k ≤ (r.cars.getD i StateHandler.default).compl_lap_cur →
        r.racetimes i k = ∑ j in Finset.Icc 1 k, r.laptimes i j

/-- C1: the claim states that for s_track_cur < 0 both get_lap_fracs and
get_s_tracks apply the wrap mapping s_track_cur + track_length expected of
the previous coordinate.  The code instead computes s_track_cur +
s_track_cur: at s_track_prev = s_track_cur = −8 on a 1000 m track the
previous coordinate is wrapped to 992 (fraction 124/125) but the current
one becomes −16 (fraction −2/125), a negative value although the methods
document their results as always positive.  This confirms the code, not
the claim, is at fault. -/
theorem C1_negative_s_cur_wrap_asymmetric :
    c1Handler.get_lap_fracs = (124 / 125, -(2 / 125))
      ∧ c1Handler.get_s_tracks = (992, -16)
      ∧ c1Handler.get_lap_fracs.2
        ≠ (c1Handler.s_track_cur + c1Handler.track_length) / c1Handler.track_length
      ∧ c1Handler.get_s_tracks.2 ≠ c1Handler.s_track_cur + c1Handler.track_length
      ∧ c1Handler.get_lap_fracs.1
        = (c1Handler.s_track_prev + c1Handler.track_length) / c1Handler.track_length
      ∧ c1Handler.get_s_tracks.1 = c1Handler.s_track_prev + c1Handler.track_length := by
  refine ⟨?_, ?_, ?_, ?_, ?_, ?_⟩ <;>
    norm_num [c1Handler, StateHandler.default, StateHandler.get_lap_fracs,
      StateHandler.get_s_tracks]

/-- C5: in state PitStandstill, check_leaves_standstill dt returns
Some (t_standstill + dt − t_standstill_target) exactly when t_standstill +
dt exceeds the target and None otherwise; and the round trip
act_pit_standstill 0 T, increment_t_standstill T, check_leaves_standstill e
yields Some e for positive e. -/
theorem C5_check_leaves_standstill_spec (sh : StateHandler) (dt : ℚ)
    (h : sh.state = State.PitStandstill) :
    ((sh.check_leaves_standstill dt
        = some (some (sh.t_standstill + dt - sh.t_standstill_target))
      ↔ sh.t_standstill + dt > sh.t_standstill_target)
    ∧ (sh.check_leaves_standstill dt = some none
      ↔ ¬sh.t_standstill + dt > sh.t_standstill_target))
    ∧ ∀ (sh0 : StateHandler) (T e : ℚ), sh0.state = State.Pitlane → 0 < e →
      (do
        let s1 ← sh0.act_pit_standstill 0 T
        let s2 ← s1.increment_t_standstill T
        s2.check_leaves_standstill e) = some (some e) := by
  constructor
  · unfold StateHandler.check_leaves_standstill
    rw [h]
    by_cases hle : sh.t_standstill + dt ≤ sh.t_standstill_target <;>
      simp [hle] <;> linarith
  · intro sh0 T e h0 he
    have h1 : sh0.act_pit_standstill 0 T = some { sh0 with
        state := State.PitStandstill, pit_standstill_act := true,
        t_standstill := 0, t_standstill_target := T } := by
      simp [StateHandler.act_pit_standstill, h0]
    have h2 : ¬((0 : ℚ) + T + e ≤ T) := by linarith
    have h3 : (0 : ℚ) + T + e - T = e := by ring
    simp [h1, StateHandler.increment_t_standstill,
      StateHandler.check_leaves_standstill, h2, h3]
    exact he

/-- C5 witness: concrete instantiation with t_standstill = 2, target = 5,
dt = 4 in state PitStandstill. -/
theorem C5_check_leaves_standstill_spec_witness :
    ({ StateHandler.default with
        state := State.PitStandstill, t_standstill := 2,
        t_standstill_target := 5 } : StateHandler).check_leaves_standstill 4
      = some (some 1) := by
  have h := (C5_check_leaves_standstill_spec
    { StateHandler.default with
        state := State.PitStandstill, t_standstill := 2, t_standstill_target := 5 }
    4 rfl).1.1
  norm_num at h
  exact h

/-- C9: the standstill and position-setting operations panic (none) exactly
on their illegal inputs and otherwise perform only their documented field
updates. -/
theorem C9_standstill_ops_panic_iff (sh : StateHandler) (a b x dt : ℚ) :
    (sh.act_pit_standstill a b = none ↔ ¬sh.state = State.Pitlane)
    ∧ (sh.state = State.Pitlane →
        sh.act_pit_standstill a b = some { sh with
          state := State.PitStandstill, pit_standstill_act := true,
          t_standstill := a, t_standstill_target := b })
    ∧ (sh.deact_pit_standstill = none ↔ ¬sh.state = State.PitStandstill)
    ∧ (sh.state = State.PitStandstill →
        sh.deact_pit_standstill = some { sh with
          state := State.Pitlane, pit_standstill_act := false,
          t_standstill := 0, t_standstill_target := 0 })
    ∧ (sh.increment_t_standstill dt = none ↔ ¬sh.state = State.PitStandstill)
    ∧ (sh.state = State.PitStandstill →
        sh.increment_t_standstill dt
          = some { sh with t_standstill := sh.t_standstill + dt })
    ∧ (sh.check_leaves_standstill dt = none ↔ ¬sh.state = State.PitStandstill)
    ∧ (sh.set_s_track x = none ↔ ¬(0 ≤ x ∧ x < sh.track_length))
    ∧ (0 ≤ x ∧ x < sh.track_length →
        sh.set_s_track x = some { sh with s_track_cur := x }) := by
  refine ⟨?_, ?_, ?_, ?_, ?_, ?_, ?_, ?_, ?_⟩ <;>
    simp only [StateHandler.act_pit_standstill, StateHandler.deact_pit_standstill,
      StateHandler.increment_t_standstill, StateHandler.check_leaves_standstill,
      StateHandler.set_s_track]
  · by_cases h : sh.state = State.Pitlane <;> simp [h]
  · intro h
    simp [h]
  · by_cases h : sh.state = State.PitStandstill <;> simp [h]
  · intro h
    simp [h]
  · by_cases h : sh.state = State.PitStandstill <;> simp [h]
  · intro h
    simp [h]
  · by_cases h : sh.state = State.PitStandstill <;> simp [h]
    by_cases h2 : sh.t_standstill + dt ≤ sh.t_standstill_target <;> simp [h2]
  · by_cases h : 0 ≤ x ∧ x < sh.track_length <;> simp [h]
  · intro h
    simp [h]

/-- Encoding of the walk successor: it advances the linear boundary number
by one, modulo the 2·n boundaries, and preserves validity. -/
theorem zoneStep_encode (n : ℕ) (p : ℕ × ℕ) (hp : ValidPos n p) :
    encodePos (zoneStep n p) = (encodePos p + 1) % (2 * n)
      ∧ ValidPos n (zoneStep n p) := by
  obtain ⟨p1, p2⟩ := p
  obtain ⟨h1, h2⟩ := hp
  simp only at h1 h2
  have hn : 0 < n := by omega
  interval_cases p2
  · have hzs : zoneStep n (p1, 0) = (p1, 1) := by
      simp only [zoneStep]
      norm_num
    rw [hzs]
    refine ⟨?_, h1, by omega⟩
    show 2 * p1 + 1 = (2 * p1 + 0 + 1) % (2 * n)
    rw [Nat.mod_eq_of_lt (by omega)]
  · have hzs : zoneStep n (p1, 1) = ((p1 + 1) % n, 0) := by
      simp only [zoneStep]
      norm_num
    rw [hzs]
    refine ⟨?_, Nat.mod_lt _ hn, by omega⟩
    show 2 * ((p1 + 1) % n) + 0 = (2 * p1 + 1 + 1) % (2 * n)
    rcases Nat.lt_or_ge (p1 + 1) n with hlt | hge
    · rw [Nat.mod_eq_of_lt hlt, Nat.mod_eq_of_lt (by omega)]
      omega
    · have heq : p1 + 1 = n := by omega
      have h2n : 2 * p1 + 1 + 1 = 2 * n := by omega
      rw [heq, Nat.mod_self, h2n, Nat.mod_self]

/-- Valid boundary positions are determined by their linear encoding. -/
theorem encodePos_inj (n : ℕ) (p q : ℕ × ℕ) (hp : ValidPos n p) (hq : ValidPos n q)
    (h : encodePos p = encodePos q) : p = q := by
  obtain ⟨_, hp2⟩ := hp
  obtain ⟨_, hq2⟩ := hq
  have : p.1 = q.1 ∧ p.2 = q.2 := by
    unfold encodePos at h
    omega
  exact Prod.ext this.1 this.2

/-- Iterating the walk successor k times advances the linear boundary
number by k, modulo 2·n. -/
theorem zoneStep_iterate (n : ℕ) (p : ℕ × ℕ) (hp : ValidPos n p) (k : ℕ) :
    encodePos ((zoneStep n)^[k] p) = (encodePos p + k) % (2 * n)
      ∧ ValidPos n ((zoneStep n)^[k] p) := by
  induction k with
  | zero =>
      refine ⟨?_, hp⟩
      simp only [Function.iterate_zero, id_eq, Nat.add_zero]
      exact (Nat.mod_eq_of_lt (by obtain ⟨h1, h2⟩ := hp; unfold encodePos; omega)).symm
  | succ k ih =>
      obtain ⟨ihe, ihv⟩ := ih
      obtain ⟨he, hv⟩ := zoneStep_encode n _ ihv
      refine ⟨?_, by rw [Function.iterate_succ_apply' (zoneStep n) k p]; exact hv⟩
      rw [Function.iterate_succ_apply' (zoneStep n) k p, he, ihe, Nat.mod_add_mod]
      congr 1

/-- After 2·n steps the walk successor returns to its start position. -/
theorem zoneStep_cycle (n : ℕ) (p : ℕ × ℕ) (hp : ValidPos n p) :
    (zoneStep n)^[2 * n] p = p := by
  obtain ⟨he, hv⟩ := zoneStep_iterate n p hp (2 * n)
  refine encodePos_inj n _ p hv hp ?_
  rw [he, Nat.add_mod_right, Nat.mod_eq_of_lt]
  obtain ⟨h1, h2⟩ := hp
  unfold encodePos
  omega

/-- When every zone boundary lies at or behind the current position, the
walk of get_act_state_and_zone never breaks early, so it runs until it
revisits its start position and returns first_zone_info. -/
theorem actZoneWalk_no_break (sh : StateHandler)
    (hz : ∀ z ∈ sh.overtaking_zones,
      z.1 ≤ sh.s_track_cur ∧ z.2 ≤ sh.s_track_cur) :
    ∀ (fuel : ℕ) (p : ℕ × ℕ), ValidPos sh.overtaking_zones.length p →
      (∃ k, 1 ≤ k ∧ k ≤ fuel
        ∧ (zoneStep sh.overtaking_zones.length)^[k] p = sh.first_zone_info) →
      StateHandler.actZoneWalk sh fuel p = some sh.first_zone_info := by
  intro fuel
  induction fuel with
  | zero =>
      intro p _ ⟨k, hk1, hk2, _⟩
      omega
  | succ fuel ih =>
      intro p hp ⟨k, hk1, hk2, hk3⟩
      obtain ⟨p1, p2⟩ := p
      obtain ⟨hp1, hp2⟩ := hp
      have hn : 0 < sh.overtaking_zones.length := by omega
      obtain ⟨z, hzget⟩ : ∃ z, sh.overtaking_zones.get? p1 = some z :=
        ⟨_, List.get?_eq_get hp1⟩
      have hzmem : z ∈ sh.overtaking_zones := List.get?_mem hzget
      obtain ⟨b, hbget, hble⟩ : ∃ b, StateHandler.zoneSide z p2 = some b
          ∧ b ≤ sh.s_track_cur := by
        interval_cases p2
        · exact ⟨z.1, by simp [StateHandler.zoneSide], (hz z hzmem).1⟩
        · exact ⟨z.2, by simp [StateHandler.zoneSide], (hz z hzmem).2⟩
      have hnotlt : ¬sh.s_track_cur < b := not_lt.mpr hble
      have hlen : ¬sh.overtaking_zones.length = 0 := by omega
      have hvstep := (zoneStep_encode sh.overtaking_zones.length (p1, p2)
        ⟨hp1, hp2⟩).2
      have hunfold : StateHandler.actZoneWalk sh (fuel + 1) (p1, p2)
          = if zoneStep sh.overtaking_zones.length (p1, p2) = sh.first_zone_info
            then some (zoneStep sh.overtaking_zones.length (p1, p2))
            else StateHandler.actZoneWalk sh fuel
              (zoneStep sh.overtaking_zones.length (p1, p2)) := by
        have hzget2 : sh.overtaking_zones[p1]? = some z := by
          rw [← List.get?_eq_getElem?]
          exact hzget
        simp [StateHandler.actZoneWalk, hzget2, hbget, hnotlt, hlen, zoneStep,
          Prod.ext_iff]
      rw [hunfold]
      by_cases hfirst : zoneStep sh.overtaking_zones.length (p1, p2)
          = sh.first_zone_info
      · rw [if_pos hfirst, hfirst]
      · rw [if_neg hfirst]
        refine ih (zoneStep sh.overtaking_zones.length (p1, p2)) hvstep ?_
        have hk1' : k ≠ 1 := by
          intro h1
          rw [h1, Function.iterate_one] at hk3
          exact hfirst hk3
        refine ⟨k - 1, by omega, by omega, ?_⟩
        have hsa : (zoneStep sh.overtaking_zones.length)^[(k - 1) + 1] (p1, p2)
            = sh.first_zone_info := by
          rw [Nat.sub_add_cancel hk1]
          exact hk3
        rwa [Function.iterate_succ_apply] at hsa

/-- C2 counterexample: on a 1000 m track with the single wrapping
overtaking zone (800, 100) and the car at 900 m, the walk returns to its
starting boundary (both boundaries lie at or behind the car), yet
get_act_state_and_zone resolves to OvertakingZone of zone 0, not
NormalZone as the claim states, because first_zone_info holds side 1. -/
theorem C2_wrap_side_counterexample :
    (∀ z ∈ c2Handler.overtaking_zones,
      z.1 ≤ c2Handler.s_track_cur ∧ z.2 ≤ c2Handler.s_track_cur)
    ∧ c2Handler.first_zone_info = (0, 1)
    ∧ c2Handler.get_act_state_and_zone = some (State.OvertakingZone, 0)
    ∧ c2Handler.get_act_state_and_zone ≠ some (State.NormalZone, 0) := by
  have hzones : c2Handler.overtaking_zones = [(800, 100)] := rfl
  have hcur : c2Handler.s_track_cur = 900 := rfl
  have hfz : c2Handler.first_zone_info = (0, 1) := by
    norm_num [c2Handler, StateHandler.initialize_state_handler,
      StateHandler.firstZoneFold, StateHandler.default, List.enum]
  refine ⟨?_, hfz, ?_, ?_⟩
  · rw [hzones, hcur]
    intro z hzz
    simp only [List.mem_singleton] at hzz
    rw [hzz]
    norm_num
  · norm_num [StateHandler.get_act_state_and_zone, StateHandler.actZoneWalk,
      hzones, hcur, hfz, StateHandler.zoneSide]
  · norm_num [StateHandler.get_act_state_and_zone, StateHandler.actZoneWalk,
      hzones, hcur, hfz, StateHandler.zoneSide]
    decide

/-- C2 (amended): if the walk of get_act_state_and_zone returns to its
starting boundary (every zone boundary lies at or behind s_track_cur),
the resolved zone index is the first zone; the resolved state is
NormalZone when the numerically smallest boundary is a zone start
(first_zone_info side 0) but OvertakingZone when it is a zone end (side 1,
a zone wrapping across the finish line). -/
theorem C2_full_walk_resolution (sh : StateHandler)
    (hfz : ValidPos sh.overtaking_zones.length sh.first_zone_info)
    (hz : ∀ z ∈ sh.overtaking_zones,
      z.1 ≤ sh.s_track_cur ∧ z.2 ≤ sh.s_track_cur) :
    sh.get_act_state_and_zone
      = some ((if sh.first_zone_info.2 = 0 then State.NormalZone
          else State.OvertakingZone), sh.first_zone_info.1) := by
  have hn : 0 < sh.overtaking_zones.length := by
    obtain ⟨h1, _⟩ := hfz
    omega
  have hwalk := actZoneWalk_no_break sh hz (2 * sh.overtaking_zones.length + 1)
    sh.first_zone_info hfz
    ⟨2 * sh.overtaking_zones.length, by omega, by omega,
      zoneStep_cycle _ _ hfz⟩
  unfold StateHandler.get_act_state_and_zone
  rw [hwalk]
  rfl

/-- C2 witness: the amended statement applied to the concrete wrapping
configuration with first_zone_info = (0, 1). -/
theorem C2_full_walk_resolution_witness :
    c2Handler.get_act_state_and_zone = some (State.OvertakingZone, 0) := by
  have hzones : c2Handler.overtaking_zones = [(800, 100)] := rfl
  have hcur : c2Handler.s_track_cur = 900 := rfl
  have hfz : c2Handler.first_zone_info = (0, 1) := by
    norm_num [c2Handler, StateHandler.initialize_state_handler,
      StateHandler.firstZoneFold, StateHandler.default, List.enum]
  have h := C2_full_walk_resolution c2Handler
    (by rw [hzones, hfz]; exact ⟨by norm_num, by norm_num⟩)
    (by rw [hzones, hcur]; intro z hzz; simp only [List.mem_singleton] at hzz;
        rw [hzz]; norm_num)
  rw [hfz] at h
  simpa using h

/-- Resolution after pit or start only yields NormalZone or
OvertakingZone. -/
theorem get_act_state_and_zone_not_pit (sh : StateHandler) (r : State × ℕ)
    (h : sh.get_act_state_and_zone = some r) :
    r.1 = State.NormalZone ∨ r.1 = State.OvertakingZone := by
  unfold StateHandler.get_act_state_and_zone at h
  cases hw : StateHandler.actZoneWalk sh (2 * sh.overtaking_zones.length + 1)
      sh.first_zone_info with
  | none =>
      rw [hw] at h
      simp at h
  | some p =>
      rw [hw] at h
      simp only [Option.some_bind] at h
      by_cases hp : p.2 = 0
      · left
        simp [hp] at h
        rw [← h]
      · right
        simp [hp] at h
        rw [← h]

/-- Preservation of the state/flag invariant by a single successful
operation. -/
theorem applyOp_preserves_StateInv (sh sh2 : StateHandler) (op : Op)
    (hinv : StateInv sh) (h : applyOp sh op = some sh2) : StateInv sh2 := by
  obtain ⟨hpsa, hdrs⟩ := hinv
  cases op with
  | opInitialize a b c d e f g h8 =>
      simp only [applyOp, Option.some_inj] at h
      subst h
      exact ⟨hpsa, hdrs⟩
  | opUpdateRaceProg lt dt =>
      simp only [applyOp, Option.some_inj] at h
      subst h
      simp only [StateHandler.update_race_prog]
      split_ifs <;> exact ⟨hpsa, hdrs⟩
  | opActPitStandstill a b =>
      simp only [applyOp, StateHandler.act_pit_standstill] at h
      split_ifs at h with hst
      simp only [Option.some_inj] at h
      subst h
      refine ⟨by simp, ?_⟩
      intro hd
      rw [not_not] at hst
      rw [hst] at hdrs
      exact absurd (hdrs hd).symm (by simp)
  | opDeactPitStandstill =>
      simp only [applyOp, StateHandler.deact_pit_standstill] at h
      split_ifs at h with hst
      simp only [Option.some_inj] at h
      subst h
      refine ⟨by simp, ?_⟩
      intro hd
      rw [not_not] at hst
      rw [hst] at hdrs
      exact absurd (hdrs hd).symm (by simp)
  | opIncrementTStandstill dt =>
      simp only [applyOp, StateHandler.increment_t_standstill] at h
      split_ifs at h with hst
      simp only [Option.some_inj] at h
      subst h
      exact ⟨hpsa, hdrs⟩
  | opSetSTrack x =>
      simp only [applyOp, StateHandler.set_s_track] at h
      split_ifs at h with hst
      simp only [Option.some_inj] at h
      subst h
      exact ⟨hpsa, hdrs⟩
  | opCheckStateTransition dtf dtr ptl lf lr fs cll dal =>
      simp only [applyOp] at h
      have hpsaF : sh.state ≠ State.PitStandstill → sh.pit_standstill_act = false := by
        intro hne
        rw [← Bool.not_eq_true]
        intro hx
        exact hne (hpsa.mp hx)
      have hdrsF : sh.state ≠ State.OvertakingZone → sh.drs_act = false := by
        intro hne
        rw [← Bool.not_eq_true]
        intro hx
        exact hne (hdrs hx)
      cases hstate : sh.state
      case Racestart =>
        have hpsa0 : sh.pit_standstill_act = false := hpsaF (by rw [hstate]; decide)
        have hdrs0 : sh.drs_act = false := hdrsF (by rw [hstate]; decide)
        simp only [StateHandler.check_state_transition, hstate] at h
        split_ifs at h with hpass
        · rw [Option.bind_eq_bind', Option.bind_eq_some'] at h
          obtain ⟨r, hga, h⟩ := h
          obtain ⟨rs, rz⟩ := r
          have hr := get_act_state_and_zone_not_pit sh (rs, rz) hga
          simp only at hr
          simp only [Option.some_inj] at h
          subst h
          refine ⟨?_, ?_⟩
          · simp only [hpsa0]
            rcases hr with hr | hr <;> rw [hr] <;> simp
          · intro hd
            simp only [hdrs0] at hd
            cases hd
        · simp only [Option.some_inj] at h
          subst h
          exact ⟨hpsa, hdrs⟩
      case NormalZone =>
        have hpsa0 : sh.pit_standstill_act = false := hpsaF (by rw [hstate]; decide)
        have hdrs0 : sh.drs_act = false := hdrsF (by rw [hstate]; decide)
        simp only [StateHandler.check_state_transition, hstate] at h
        rw [Option.bind_eq_bind', Option.bind_eq_some'] at h
        obtain ⟨mp, hmp, h⟩ := h
        split_ifs at h with hw hpit hpit <;>
          first
          | (simp only [Option.some_inj] at h
             subst h
             refine ⟨by simp [hpsa0, hstate], ?_⟩
             intro hd
             first
             | rfl
             | cases hd
             | (simp only [hdrs0] at hd
                cases hd)
             | exact hdrs hd)
          | (rw [Option.bind_eq_bind', Option.bind_eq_some'] at h
             obtain ⟨z, hz, h⟩ := h
             split_ifs at h <;>
               first
               | exact Option.noConfusion h
               | (simp only [Option.some_inj] at h
                  subst h
                  refine ⟨by simp [hpsa0, hstate], ?_⟩
                  intro hd
                  first
                  | rfl
                  | cases hd
                  | (simp only [hdrs0] at hd
                     cases hd)
                  | exact hdrs hd))
      case OvertakingZone =>
        have hpsa0 : sh.pit_standstill_act = false := hpsaF (by rw [hstate]; decide)
        simp only [StateHandler.check_state_transition, hstate] at h
        split_ifs at h with hpit <;>
          first
          | (simp only [Option.some_inj] at h
             subst h
             refine ⟨by simp [hpsa0, hstate], ?_⟩
             intro hd
             first
             | rfl
             | cases hd
             | exact hdrs hd)
          | (rw [Option.bind_eq_bind', Option.bind_eq_some'] at h
             obtain ⟨z, hz, h⟩ := h
             split_ifs at h <;>
               first
               | exact Option.noConfusion h
               | (simp only [Option.some_inj] at h
                  subst h
                  refine ⟨by simp [hpsa0, hstate], ?_⟩
                  intro hd
                  first
                  | rfl
                  | cases hd
                  | exact hdrs hd))
      case Pitlane =>
        have hpsa0 : sh.pit_standstill_act = false := hpsaF (by rw [hstate]; decide)
        have hdrs0 : sh.drs_act = false := hdrsF (by rw [hstate]; decide)
        simp only [StateHandler.check_state_transition, hstate] at h
        split_ifs at h with hpass
        · rw [Option.bind_eq_bind', Option.bind_eq_some'] at h
          obtain ⟨r, hga, h⟩ := h
          obtain ⟨rs, rz⟩ := r
          have hr := get_act_state_and_zone_not_pit sh (rs, rz) hga
          simp only at hr
          simp only [Option.some_inj] at h
          subst h
          refine ⟨?_, ?_⟩
          · simp only [hpsa0]
            rcases hr with hr | hr <;> rw [hr] <;> simp
          · intro hd
            simp only [hdrs0] at hd
            cases hd
        · simp only [Option.some_inj] at h
          subst h
          exact ⟨hpsa, hdrs⟩
      case PitStandstill =>
        simp only [StateHandler.check_state_transition, hstate, Option.some_inj] at h
        subst h
        exact ⟨hpsa, hdrs⟩

/-- C4: every sequence of StateHandler operations run from the default
handler preserves the invariant pit_standstill_act ⇔ state = PitStandstill
and drs_act ⇒ state = OvertakingZone. -/
theorem C4_state_flag_invariant (ops : List Op) (sh2 : StateHandler)
    (h : runOps StateHandler.default ops = some sh2) : StateInv sh2 := by
  have hgen : ∀ (ops : List Op) (sh sh2 : StateHandler), StateInv sh →
      runOps sh ops = some sh2 → StateInv sh2 := by
    intro ops
    induction ops with
    | nil =>
        intro sh sh2 hinv h
        simp only [runOps, Option.some_inj] at h
        subst h
        exact hinv
    | cons op ops ih =>
        intro sh sh2 hinv h
        simp only [runOps] at h
        cases hap : applyOp sh op with
        | none =>
            rw [hap] at h
            simp at h
        | some shm =>
            rw [hap] at h
            simp only [Option.some_bind] at h
            exact ih shm sh2 (applyOp_preserves_StateInv sh shm op hinv hap) h
  refine hgen ops StateHandler.default sh2 ⟨by simp [StateHandler.default], ?_⟩ h
  intro hd
  simp [StateHandler.default] at hd

/-- C4 witness: a concrete run from the default handler through an
update_race_prog step satisfying the invariant. -/
theorem C4_state_flag_invariant_witness : StateInv StateHandler.default := by
  refine C4_state_flag_invariant
    [Op.opCheckStateTransition 0 0 false false false FlagState.G 0 0] _ ?_
  have hc : StateHandler.default.check_state_transition 0 0 false false false
      FlagState.G 0 0 = some StateHandler.default := by
    norm_num [StateHandler.check_state_transition, StateHandler.default,
      StateHandler.get_s_track_passed_this_step, StateHandler.get_new_lap]
  simp [runOps, applyOp, hc]

/-- C9 witness: on the default handler (state Racestart), act panics, and
set_s_track 5 panics because track_length is 0. -/
theorem C9_standstill_ops_panic_iff_witness :
    StateHandler.default.act_pit_standstill 1 2 = none
      ∧ StateHandler.default.set_s_track 5 = none := by
  have h := C9_standstill_ops_panic_iff StateHandler.default 1 2 5 0
  exact ⟨h.1.mpr (by decide), h.2.2.2.2.2.2.2.1.mpr (by decide)⟩

/-- C10: the parameter set c10Pars (one overtaking zone, no DRS
measurement points) is accepted by check_sim_opts_pars, yet the state
machine built from its track data reaches NormalZone after the race start
and on the next transition check evaluates drs_measurement_points at the
active zone index out of bounds, i.e. panics (none). -/
theorem C10_accepted_pars_with_missing_drs_point_panic :
    check_sim_opts_pars c10Opts c10Pars = true
    ∧ c10Pars.track_pars.drs_measurement_points.length
        < c10Pars.track_pars.overtaking_zones.length
    ∧ (c10Handler.check_state_transition 0 0 false false false FlagState.G 1 1).map
        (fun s => (s.state, s.act_zone_idx)) = some (State.NormalZone, 0)
    ∧ (c10Handler.check_state_transition 0 0 false false false FlagState.G 1 1).bind
        (fun s => s.check_state_transition 0 0 false false false FlagState.G 1 1)
      = none := by
  have hcheck : check_sim_opts_pars c10Opts c10Pars = true := by
    norm_num [check_sim_opts_pars, carStrategyOk, c10Opts, c10Pars]
    exact ⟨rfl, rfl⟩
  have hfirst : c10Handler.check_state_transition 0 0 false false false FlagState.G 1 1
      = some { c10Handler with
          state := State.NormalZone, act_zone_idx := 0,
          start_act := false, overtaking_act := false } := by
    norm_num [c10Handler, c10Pars, StateHandler.default,
      StateHandler.initialize_state_handler, StateHandler.firstZoneFold,
      StateHandler.update_race_prog, StateHandler.check_state_transition,
      StateHandler.get_s_track_passed_this_step, StateHandler.get_new_lap,
      StateHandler.get_act_state_and_zone, StateHandler.actZoneWalk,
      StateHandler.zoneSide, List.enum]
  refine ⟨hcheck, by norm_num [c10Pars], ?_, ?_⟩
  · rw [hfirst]
    rfl
  · rw [hfirst]
    norm_num [c10Handler, c10Pars, StateHandler.default,
      StateHandler.initialize_state_handler, StateHandler.firstZoneFold,
      StateHandler.update_race_prog, StateHandler.check_state_transition,
      List.enum]

/-- Reflexivity-like fact: a finite bound is below itself. -/
theorem F.ble_fin_refl (m : ℚ) : F.ble (F.fin m) (F.fin m) = true := by
  simp [F.ble]

/-- A finite lower bound survives a strict IEEE increase. -/
theorem F.ble_fin_trans_blt (m : ℚ) (a c : F) (h1 : F.ble (F.fin m) a = true)
    (h2 : F.blt a c = true) : F.ble (F.fin m) c = true := by
  cases a <;> cases c <;> simp_all [F.ble, F.blt] <;> linarith

/-- Totality at finite points: a value that is not strictly below a finite
bound and is itself finite lies at or above the bound. -/
theorem F.ble_fin_of_not_blt (m q : ℚ) (h : ¬F.blt (F.fin q) (F.fin m) = true) :
    F.ble (F.fin m) (F.fin q) = true := by
  simp_all [F.ble, F.blt]

/-- The seeded lap time of a car outside the pit is at least the
flag-state minimum. -/
theorem seed_cur_laptime_min (r : Race) (i : ℕ) (car : StateHandler) (v : F)
    (hp : car.pit_act = false) (h : seed_cur_laptime r i car = some v) :
    F.ble (F.fin (get_min_laptime_flag_state r)) v = true := by
  unfold seed_cur_laptime at h
  simp only [hp, Bool.false_eq_true, if_false, Option.some_bind, not_false_eq_true,
    true_and] at h
  obtain ⟨q, hq⟩ : ∃ q, (if car.drs_act = true then
      F.add (if car.duel_act = true then
          F.add (if car.start_act = true then
              F.add (F.fin (r.cur_th_laptimes.getD i 0))
                (F.fin (r.track.t_loss_firstlap / r.track.turn_1_lap_frac))
            else F.fin (r.cur_th_laptimes.getD i 0))
            (F.fin (r.t_duel / r.track.overtaking_zones_lap_frac))
        else (if car.start_act = true then
              F.add (F.fin (r.cur_th_laptimes.getD i 0))
                (F.fin (r.track.t_loss_firstlap / r.track.turn_1_lap_frac))
            else F.fin (r.cur_th_laptimes.getD i 0)))
        (F.fin (r.track.t_drseffect / r.track.overtaking_zones_lap_frac))
    else (if car.duel_act = true then
          F.add (if car.start_act = true then
              F.add (F.fin (r.cur_th_laptimes.getD i 0))
                (F.fin (r.track.t_loss_firstlap / r.track.turn_1_lap_frac))
            else F.fin (r.cur_th_laptimes.getD i 0))
            (F.fin (r.t_duel / r.track.overtaking_zones_lap_frac))
        else (if car.start_act = true then
              F.add (F.fin (r.cur_th_laptimes.getD i 0))
                (F.fin (r.track.t_loss_firstlap / r.track.turn_1_lap_frac))
            else F.fin (r.cur_th_laptimes.getD i 0)))) = F.fin q := by
    split_ifs <;> simp [F.add]
  rw [hq] at h
  rw [Option.bind_eq_bind'] at h
  simp only [Option.some_bind'] at h
  split_ifs at h with hblt
  · simp only [Option.some_inj] at h
    subst h
    exact F.ble_fin_refl _
  · simp only [Option.some_inj] at h
    subst h
    exact F.ble_fin_of_not_blt _ _ hblt

/-- One correction step preserves any finite lower bound on any entry of
the lap-time list (it only ever raises an entry, strictly). -/
theorem min_dist_correction_step_min (cars : List StateHandler)
    (m dt mn : ℚ) (lts : List F) (pair : ℕ × ℕ) (i : ℕ)
    (h : F.ble (F.fin mn) (lts.getD i F.nan) = true) :
    F.ble (F.fin mn)
      ((min_dist_correction_step cars m dt lts pair).getD i F.nan) = true := by
  simp only [min_dist_correction_step]
  split_ifs with h1 h2
  · by_cases hij : pair.2 = i
    · subst hij
      by_cases hlen : pair.2 < lts.length
      · rw [List.getD_eq_getElem?_getD, List.getElem?_set_self]
        · exact F.ble_fin_trans_blt mn _ _ h h2
        · exact hlen
      · rw [List.set_eq_of_length_le (by omega)]
        exact h
    · rw [List.getD_eq_getElem?_getD, List.getElem?_set_ne hij,
        ← List.getD_eq_getElem?_getD]
      exact h
  · exact h
  · exact h

/-- The whole correction pass preserves any finite lower bound on any
entry of the lap-time list. -/
theorem min_dist_correction_min (cars : List StateHandler) (m dt mn : ℚ)
    (lts : List F) (i : ℕ)
    (h : F.ble (F.fin mn) (lts.getD i F.nan) = true) :
    F.ble (F.fin mn)
      ((min_dist_correction cars m dt lts).getD i F.nan) = true := by
  simp only [min_dist_correction]
  generalize get_car_pair_idxs_list (get_idx_list_sorted_by_biggest_gap cars lts)
    true = pairs
  induction pairs generalizing lts with
  | nil => exact h
  | cons p ps ih =>
      exact ih _ (min_dist_correction_step_min cars m dt mn lts p i h)

/-- Pointwise reading of the seeding loop: entry j of the result comes
from seeding car s + j. -/
theorem seedFrom_getD (r : Race) : ∀ (k s : ℕ) (out : List F),
    seedFrom r s k = some out → ∀ j, j < k →
      seed_cur_laptime r (s + j) (r.cars_list.getD (s + j) StateHandler.default)
        = some (out.getD j F.nan) := by
  intro k
  induction k with
  | zero =>
      intro s out _ j hj
      omega
  | succ k ih =>
      intro s out h j hj
      unfold seedFrom at h
      rw [Option.bind_eq_bind', Option.bind_eq_some'] at h
      obtain ⟨v, hv, h⟩ := h
      rw [Option.bind_eq_bind', Option.bind_eq_some'] at h
      obtain ⟨rest, hrest, h⟩ := h
      simp only [Option.some_inj] at h
      subst h
      cases j with
      | zero => simpa using hv
      | succ j =>
          have := ih (s + 1) rest hrest j (by omega)
          rw [show s + 1 + j = s + (j + 1) by omega] at this
          simpa using this

/-- C3: after calc_cur_laptimes completes, every car outside the pit
respects the flag-state minimum lap time: at least 1.1·(t_q +
t_gap_racepace) under Yellow and at least 1.4·(t_q + t_gap_racepace)
under VSC or SC; the correction pass can only raise lap times. -/
theorem C3_flag_state_minimum_laptime (r : Race) (lts : List F)
    (h : calc_cur_laptimes r = some lts) (i : ℕ)
    (hi : i < r.cars_list.length)
    (hp : (r.cars_list.getD i StateHandler.default).pit_act = false) :
    (r.flag_state = FlagState.Y →
      F.ble (F.fin ((r.track.t_q + r.track.t_gap_racepace) * (11 / 10)))
        (lts.getD i F.nan) = true)
    ∧ ((r.flag_state = FlagState.Vsc ∨ r.flag_state = FlagState.Sc) →
      F.ble (F.fin ((r.track.t_q + r.track.t_gap_racepace) * (14 / 10)))
        (lts.getD i F.nan) = true) := by
  unfold calc_cur_laptimes at h
  rw [Option.bind_eq_bind', Option.bind_eq_some'] at h
  obtain ⟨seeded, hseed, h⟩ := h
  simp only [Option.some_inj] at h
  subst h
  have hsv := seedFrom_getD r r.cars_list.length 0 seeded hseed i hi
  simp only [Nat.zero_add] at hsv
  have hmin := seed_cur_laptime_min r i _ _ hp hsv
  have hfinal := min_dist_correction_min r.cars_list r.min_t_dist r.timestep_size
    (get_min_laptime_flag_state r) seeded i hmin
  constructor
  · intro hflag
    have : get_min_laptime_flag_state r
        = (r.track.t_q + r.track.t_gap_racepace) * (11 / 10) := by
      unfold get_min_laptime_flag_state
      rw [hflag]
    rw [this] at hfinal
    exact hfinal
  · intro hflag
    have : get_min_laptime_flag_state r
        = (r.track.t_q + r.track.t_gap_racepace) * (14 / 10) := by
      unfold get_min_laptime_flag_state
      rcases hflag with hflag | hflag <;> rw [hflag]
    rw [this] at hfinal
    exact hfinal

/-- C3 witness: on the concrete yellow-flag race the computed lap time is
exactly the minimum 101.2 s and satisfies the bound. -/
theorem C3_flag_state_minimum_laptime_witness :
    calc_cur_laptimes c3Race = some [F.fin (506 / 5)]
    ∧ F.ble (F.fin ((c3Race.track.t_q + c3Race.track.t_gap_racepace) * (11 / 10)))
        ([F.fin (506 / 5)].getD 0 F.nan) = true := by
  have hc : calc_cur_laptimes c3Race = some [F.fin (506 / 5)] := by
    norm_num [calc_cur_laptimes, seedFrom, seed_cur_laptime,
      get_min_laptime_flag_state, min_dist_correction,
      get_idx_list_sorted_by_biggest_gap, get_car_order_on_track, argsortDesc,
      insertDescBy, get_car_pair_idxs_list, argmax,
      calc_projected_delta_lap_frac, calc_projected_delta_t, F.add, F.sub,
      F.mul, F.div, F.blt, F.ble, StateHandler.get_lap_fracs,
      StateHandler.get_s_tracks, c3Race, StateHandler.default, List.range_succ,
      List.rotateLeft]
  refine ⟨hc, ?_⟩
  exact (C3_flag_state_minimum_laptime c3Race _ hc 0 (by norm_num [c3Race])
    (by norm_num [c3Race, StateHandler.default])).1 rfl

/-- Strict IEEE comparison is transitive. -/
theorem F.blt_trans (a b c : F) (h1 : F.blt a b = true) (h2 : F.blt b c = true) :
    F.blt a c = true := by
  cases a <;> cases b <;> cases c <;> simp_all [F.blt] <;> linarith

/-- A single correction step leaves each lap-time entry unchanged or
strictly raises it in the IEEE order. -/
theorem min_dist_correction_step_mono (cars : List StateHandler)
    (m dt : ℚ) (lts : List F) (pair : ℕ × ℕ) (i : ℕ) :
    (min_dist_correction_step cars m dt lts pair).getD i F.nan = lts.getD i F.nan
    ∨ F.blt (lts.getD i F.nan)
        ((min_dist_correction_step cars m dt lts pair).getD i F.nan) = true := by
  simp only [min_dist_correction_step]
  split_ifs with h1 h2
  · by_cases hij : pair.2 = i
    · subst hij
      by_cases hlen : pair.2 < lts.length
      · rw [List.getD_eq_getElem?_getD, List.getElem?_set_self]
        · right
          simpa using h2
        · exact hlen
      · rw [List.set_eq_of_length_le (by omega)]
        left
        rfl
    · left
      rw [List.getD_eq_getElem?_getD, List.getElem?_set_ne hij,
        ← List.getD_eq_getElem?_getD]
  · left
    rfl
  · left
    rfl

/-- The correction pass leaves each lap-time entry unchanged or strictly
raises it in the IEEE order. -/
theorem min_dist_correction_mono (cars : List StateHandler) (m dt : ℚ)
    (lts : List F) (i : ℕ) :
    (min_dist_correction cars m dt lts).getD i F.nan = lts.getD i F.nan
    ∨ F.blt (lts.getD i F.nan)
        ((min_dist_correction cars m dt lts).getD i F.nan) = true := by
  simp only [min_dist_correction]
  generalize get_car_pair_idxs_list (get_idx_list_sorted_by_biggest_gap cars lts)
    true = pairs
  induction pairs generalizing lts with
  | nil => exact Or.inl rfl
  | cons p ps ih =>
      rcases min_dist_correction_step_mono cars m dt lts p i with hs | hs
      · rcases ih (min_dist_correction_step cars m dt lts p) with hr | hr
        · exact Or.inl (by rw [List.foldl_cons, hr, hs])
        · refine Or.inr ?_
          rw [← hs]
          simpa using hr
      · rcases ih (min_dist_correction_step cars m dt lts p) with hr | hr
        · refine Or.inr ?_
          rw [List.foldl_cons, hr]
          exact hs
        · refine Or.inr (F.blt_trans _ _ _ hs ?_)
          simpa using hr

set_option maxHeartbeats 1000000 in
/-- C7 counterexample: on the concrete two-car race calc_cur_laptimes
yields lap times (100, 130); running the correction pass once more on
this already-corrected list with unchanged positions and flags raises the
rear car again, to 137.7 s, so the pass is not idempotent. -/
theorem C7_correction_not_idempotent :
    calc_cur_laptimes c7Race = some [F.fin 100, F.fin 130]
    ∧ min_dist_correction c7Race.cars_list c7Race.min_t_dist
        c7Race.timestep_size [F.fin 100, F.fin 130]
      = [F.fin 100, F.fin (1377 / 10)]
    ∧ ¬min_dist_correction c7Race.cars_list c7Race.min_t_dist
        c7Race.timestep_size [F.fin 100, F.fin 130]
      = [F.fin 100, F.fin 130] := by
  have hord : get_car_order_on_track c7Cars = [0, 1] := by
    norm_num [get_car_order_on_track, argsortDesc, insertDescBy,
      StateHandler.get_s_tracks, c7Cars, StateHandler.default, List.range_succ]
  have hgap1 : get_idx_list_sorted_by_biggest_gap c7Cars
      [F.fin 100, F.fin 100] = [0, 1] := by
    rw [get_idx_list_sorted_by_biggest_gap, hord]
    norm_num [get_car_pair_idxs_list, argmax, calc_projected_delta_lap_frac,
      F.add, F.sub, F.mul, F.div, F.blt, F.ble, StateHandler.get_lap_fracs,
      c7Cars, StateHandler.default, List.range_succ, List.rotateLeft,
      List.enum, List.enumFrom]
  have hstep1 : min_dist_correction_step c7Cars 1 1
      [F.fin 100, F.fin 100] (0, 1) = [F.fin 100, F.fin 130] := by
    norm_num [min_dist_correction_step, calc_projected_delta_t,
      calc_projected_delta_lap_frac, F.add, F.sub, F.mul, F.div, F.blt, F.ble,
      StateHandler.get_lap_fracs, c7Cars, StateHandler.default]
  have hpass1 : min_dist_correction c7Cars 1 1
      [F.fin 100, F.fin 100] = [F.fin 100, F.fin 130] := by
    rw [min_dist_correction, hgap1]
    norm_num [get_car_pair_idxs_list, List.range_succ, hstep1]
  have hgap2 : get_idx_list_sorted_by_biggest_gap c7Cars
      [F.fin 100, F.fin 130] = [0, 1] := by
    rw [get_idx_list_sorted_by_biggest_gap, hord]
    norm_num [get_car_pair_idxs_list, argmax, calc_projected_delta_lap_frac,
      F.add, F.sub, F.mul, F.div, F.blt, F.ble, StateHandler.get_lap_fracs,
      c7Cars, StateHandler.default, List.range_succ, List.rotateLeft,
      List.enum, List.enumFrom]
  have hstep2 : min_dist_correction_step c7Cars 1 1
      [F.fin 100, F.fin 130] (0, 1) = [F.fin 100, F.fin (1377 / 10)] := by
    norm_num [min_dist_correction_step, calc_projected_delta_t,
      calc_projected_delta_lap_frac, F.add, F.sub, F.mul, F.div, F.blt, F.ble,
      StateHandler.get_lap_fracs, c7Cars, StateHandler.default]
  have hpass2 : min_dist_correction c7Cars 1 1
      [F.fin 100, F.fin 130] = [F.fin 100, F.fin (1377 / 10)] := by
    rw [min_dist_correction, hgap2]
    norm_num [get_car_pair_idxs_list, List.range_succ, hstep2]
  have hseed : seedFrom c7Race 0 2 = some [F.fin 100, F.fin 100] := by
    norm_num [seedFrom, seed_cur_laptime, get_min_laptime_flag_state, F.blt,
      c7Race, c7Cars, StateHandler.default]
  have hmt : c7Race.min_t_dist = 1 := rfl
  have hts : c7Race.timestep_size = 1 := rfl
  have hcars : c7Race.cars_list = c7Cars := rfl
  refine ⟨?_, ?_, ?_⟩
  · rw [calc_cur_laptimes]
    rw [show c7Race.cars_list.length = 2 from rfl, hseed]
    rw [Option.bind_eq_bind']
    simp only [Option.some_bind', Option.some_inj]
    rw [hcars, hmt, hts, hpass1]
  · rw [hcars, hmt, hts, hpass2]
  · rw [hcars, hmt, hts, hpass2]
    intro hcon
    have := List.tail_eq_of_cons_eq hcon
    simp at this
    norm_num at this

/-- C7 (amended): running the minimum-following-distance correction pass a
second time on already-corrected lap times, with positions, flags and
pair ordering unchanged, never lowers any lap time — each entry is left
unchanged or strictly raised (the pass is monotone but, by the
counterexample, not idempotent). -/
theorem C7_second_pass_never_lowers (cars : List StateHandler) (m dt : ℚ)
    (lts0 : List F) (i : ℕ) :
    (min_dist_correction cars m dt (min_dist_correction cars m dt lts0)).getD i F.nan
      = (min_dist_correction cars m dt lts0).getD i F.nan
    ∨ F.blt ((min_dist_correction cars m dt lts0).getD i F.nan)
        ((min_dist_correction cars m dt
          (min_dist_correction cars m dt lts0)).getD i F.nan) = true :=
  min_dist_correction_mono cars m dt (min_dist_correction cars m dt lts0) i

/-- Reading an entry of a mapped range list. -/
theorem getD_range_map {α : Type} (n : ℕ) (f : ℕ → α) (i : ℕ) (d : α)
    (h : i < n) : ((List.range n).map f).getD i d = f i := by
  rw [List.getD_eq_getElem?_getD, List.getElem?_map, List.getElem?_range h]
  rfl

/-- Reading beyond the end of a mapped range list. -/
theorem getD_range_map_ge {α : Type} (n : ℕ) (f : ℕ → α) (i : ℕ) (d : α)
    (h : n ≤ i) : ((List.range n).map f).getD i d = d := by
  apply List.getD_eq_default
  simpa using h

/-- update_race_prog shifts the completed-lap counter into the previous
slot and increments the current one by at most one. -/
theorem update_race_prog_compl (sh : StateHandler) (lt dt : ℚ) :
    (sh.update_race_prog lt dt).compl_lap_prev = sh.compl_lap_cur
    ∧ ((sh.update_race_prog lt dt).compl_lap_cur = sh.compl_lap_cur
      ∨ (sh.update_race_prog lt dt).compl_lap_cur = sh.compl_lap_cur + 1) := by
  simp only [StateHandler.update_race_prog]
  split_ifs <;> simp

/-- The pit snaps change only the s coordinate, never the lap counters. -/
theorem adjustCars_compl (cars : List StateHandler) (adj : List (Option ℚ))
    (i : ℕ) :
    ((adjustCars cars adj).getD i StateHandler.default).compl_lap_cur
      = (cars.getD i StateHandler.default).compl_lap_cur
    ∧ ((adjustCars cars adj).getD i StateHandler.default).compl_lap_prev
      = (cars.getD i StateHandler.default).compl_lap_prev := by
  by_cases hi : i < cars.length
  · rw [adjustCars, getD_range_map _ _ _ _ hi]
    cases adj.getD i none
    · exact ⟨rfl, rfl⟩
    · dsimp only
      split_ifs <;> exact ⟨rfl, rfl⟩
  · rw [adjustCars, getD_range_map_ge _ _ _ _ (by omega),
      List.getD_eq_default _ _ (by omega)]
    exact ⟨rfl, rfl⟩

/-- The pit snaps preserve the car count. -/
theorem adjustCars_length (cars : List StateHandler) (adj : List (Option ℚ)) :
    (adjustCars cars adj).length = cars.length := by
  simp [adjustCars]

/-- One lap-transition step changes neither the cars nor the scalar race
fields. -/
theorem lapTransCar_const (lts : List ℚ) (acc : RaceT) (i : ℕ) :
    (lapTransCar lts acc i).cars = acc.cars
    ∧ (lapTransCar lts acc i).tot_no_laps = acc.tot_no_laps
    ∧ (lapTransCar lts acc i).cur_racetime = acc.cur_racetime
    ∧ (lapTransCar lts acc i).timestep_size = acc.timestep_size
    ∧ (lapTransCar lts acc i).flag_state = acc.flag_state
    ∧ (lapTransCar lts acc i).cur_lap_leader = acc.cur_lap_leader := by
  simp only [lapTransCar]
  split_ifs <;> simp

/-- The whole lap-transition loop changes neither the cars nor the scalar
race fields. -/
theorem lapLoop_const (lts : List ℚ) :
    ∀ (L : List ℕ) (acc : RaceT),
    ((L.foldl (lapTransCar lts) acc).cars = acc.cars
    ∧ (L.foldl (lapTransCar lts) acc).tot_no_laps = acc.tot_no_laps
    ∧ (L.foldl (lapTransCar lts) acc).cur_racetime = acc.cur_racetime
    ∧ (L.foldl (lapTransCar lts) acc).timestep_size = acc.timestep_size
    ∧ (L.foldl (lapTransCar lts) acc).flag_state = acc.flag_state
    ∧ (L.foldl (lapTransCar lts) acc).cur_lap_leader = acc.cur_lap_leader) := by
  intro L
  induction L with
  | nil => intro acc; exact ⟨rfl, rfl, rfl, rfl, rfl, rfl⟩
  | cons j L ih =>
      intro acc
      rw [List.foldl_cons]
      obtain ⟨h1, h2, h3, h4, h5, h6⟩ := ih (lapTransCar lts acc j)
      obtain ⟨g1, g2, g3, g4, g5, g6⟩ := lapTransCar_const lts acc j
      exact ⟨h1.trans g1, h2.trans g2, h3.trans g3, h4.trans g4, h5.trans g5,
        h6.trans g6⟩

/-- A lap-transition step for car j leaves the tables and finished flag of
any other car untouched. -/
theorem lapTransCar_ne (lts : List ℚ) (acc : RaceT) (i j : ℕ) (h : i ≠ j) :
    (lapTransCar lts acc j).laptimes i = acc.laptimes i
    ∧ (lapTransCar lts acc j).racetimes i = acc.racetimes i
    ∧ (lapTransCar lts acc j).race_finished i = acc.race_finished i := by
  simp only [lapTransCar]
  split_ifs <;>
    simp [Function.update_noteq h]

/-- The lap-transition loop leaves the tables and finished flag of any car
outside the index list untouched. -/
theorem lapLoop_not_mem (lts : List ℚ) :
    ∀ (L : List ℕ) (acc : RaceT) (i : ℕ), i ∉ L →
    ((L.foldl (lapTransCar lts) acc).laptimes i = acc.laptimes i
    ∧ (L.foldl (lapTransCar lts) acc).racetimes i = acc.racetimes i
    ∧ (L.foldl (lapTransCar lts) acc).race_finished i = acc.race_finished i) := by
  intro L
  induction L with
  | nil => intro acc i _; exact ⟨rfl, rfl, rfl⟩
  | cons j L ih =>
      intro acc i hi
      rw [List.foldl_cons]
      have hij : i ≠ j := fun hh => hi (by rw [hh]; exact List.mem_cons_self j L)
      obtain ⟨h1, h2, h3⟩ := ih (lapTransCar lts acc j) i
        (fun hh => hi (List.mem_cons_of_mem j hh))
      obtain ⟨g1, g2, g3⟩ := lapTransCar_ne lts acc i j hij
      exact ⟨h1.trans g1, h2.trans g2, h3.trans g3⟩

/-- The effect of a lap-transition step on its own car depends only on the
cars, the scalar fields and that car's rows. -/
theorem lapTransCar_congr (lts : List ℚ) (acc acc2 : RaceT) (i : ℕ)
    (hc : acc2.cars = acc.cars) (ht : acc2.tot_no_laps = acc.tot_no_laps)
    (hr : acc2.cur_racetime = acc.cur_racetime)
    (hd : acc2.timestep_size = acc.timestep_size)
    (hf : acc2.flag_state = acc.flag_state)
    (hl : acc2.laptimes i = acc.laptimes i)
    (hrt : acc2.racetimes i = acc.racetimes i)
    (hfin : acc2.race_finished i = acc.race_finished i) :
    (lapTransCar lts acc2 i).laptimes i = (lapTransCar lts acc i).laptimes i
    ∧ (lapTransCar lts acc2 i).racetimes i = (lapTransCar lts acc i).racetimes i
    ∧ (lapTransCar lts acc2 i).race_finished i
      = (lapTransCar lts acc i).race_finished i := by
  simp only [lapTransCar, hc, ht, hr, hd]
  split_ifs <;>
    simp_all [Function.update_same]

/-- Running the lap-transition loop over a duplicate-free index list acts
on each listed car exactly as the single step for that car does. -/
theorem lapLoop_mem (lts : List ℚ) :
    ∀ (L : List ℕ) (acc : RaceT) (i : ℕ), L.Nodup → i ∈ L →
    ((L.foldl (lapTransCar lts) acc).laptimes i = (lapTransCar lts acc i).laptimes i
    ∧ (L.foldl (lapTransCar lts) acc).racetimes i = (lapTransCar lts acc i).racetimes i
    ∧ (L.foldl (lapTransCar lts) acc).race_finished i
      = (lapTransCar lts acc i).race_finished i) := by
  intro L
  induction L with
  | nil =>
      intro acc i _ hmem
      cases hmem
  | cons j L ih =>
      intro acc i hnd hmem
      rw [List.foldl_cons]
      by_cases hij : i = j
      · subst hij
        have hnotin : i ∉ L := (List.nodup_cons.mp hnd).1
        exact lapLoop_not_mem lts L (lapTransCar lts acc i) i hnotin
      · have hmem2 : i ∈ L := by
          rcases List.mem_cons.mp hmem with hh | hh
          · exact absurd hh hij
          · exact hh
        have h1 := ih (lapTransCar lts acc j) i (List.nodup_cons.mp hnd).2 hmem2
        obtain ⟨g1, g2, g3, g4, g5, g6⟩ := lapTransCar_const lts acc j
        obtain ⟨e1, e2, e3⟩ := lapTransCar_ne lts acc i j hij
        obtain ⟨c1, c2, c3⟩ := lapTransCar_congr lts acc (lapTransCar lts acc j) i
          g1 g2 g3 g4 g5 e1 e2 e3
        exact ⟨h1.1.trans c1, h1.2.1.trans c2, h1.2.2.trans c3⟩

/-- Reading an advanced car inside the grid. -/
theorem advCars_getD_lt (cars : List StateHandler) (lts : List ℚ) (dt : ℚ)
    (i : ℕ) (hi : i < cars.length) :
    (advanceCars cars lts dt).getD i StateHandler.default
      = (cars.getD i StateHandler.default).update_race_prog (lts.getD i 0) dt := by
  rw [advanceCars]
  exact getD_range_map _ _ _ _ hi

/-- Reading an advanced car beyond the grid. -/
theorem advCars_getD_ge (cars : List StateHandler) (lts : List ℚ) (dt : ℚ)
    (i : ℕ) (hi : cars.length ≤ i) :
    (advanceCars cars lts dt).getD i StateHandler.default
      = StateHandler.default := by
  rw [advanceCars]
  exact getD_range_map_ge _ _ _ _ hi

/-- handle_lap_transitions changes neither the car list nor the race
distance. -/
theorem handle_lap_transitions_cars (r : RaceT) (lts : List ℚ) :
    (handle_lap_transitions r lts).cars = r.cars
    ∧ (handle_lap_transitions r lts).tot_no_laps = r.tot_no_laps := by
  simp only [handle_lap_transitions]
  obtain ⟨h1, h2, -⟩ := lapLoop_const lts (List.range r.cars.length) _
  exact ⟨h1, h2⟩

/-- One lap-transition step keeps the accounting identity of its own car:
if the race-time row was consistent up to the previously completed lap and
the lap counter advanced by at most one, then after the step the row is
consistent up to the currently completed lap. -/
theorem lapTransCar_acct (lts : List ℚ) (acc : RaceT) (i : ℕ)
    (hstep : (acc.cars.getD i StateHandler.default).compl_lap_cur
        = (acc.cars.getD i StateHandler.default).compl_lap_prev
      ∨ (acc.cars.getD i StateHandler.default).compl_lap_cur
        = (acc.cars.getD i StateHandler.default).compl_lap_prev + 1)
    (hA : acc.racetimes i 0 = 0)
    (hB : ∀ k, 1 ≤ k → k ≤ acc.tot_no_laps →
      k ≤ (acc.cars.getD i StateHandler.default).compl_lap_prev →
      acc.racetimes i k = ∑ j in Finset.Icc 1 k, acc.laptimes i j) :
    (lapTransCar lts acc i).racetimes i 0 = 0
    ∧ ∀ k, 1 ≤ k → k ≤ acc.tot_no_laps →
      k ≤ (acc.cars.getD i StateHandler.default).compl_lap_cur →
      (lapTransCar lts acc i).racetimes i k
        = ∑ j in Finset.Icc 1 k, (lapTransCar lts acc i).laptimes i j := by
  by_cases hnew : (acc.cars.getD i StateHandler.default).get_new_lap = true
  · have hgt : (acc.cars.getD i StateHandler.default).compl_lap_prev
        < (acc.cars.getD i StateHandler.default).compl_lap_cur := by
      simpa [StateHandler.get_new_lap] using hnew
    have hK : (acc.cars.getD i StateHandler.default).compl_lap_cur
        = (acc.cars.getD i StateHandler.default).compl_lap_prev + 1 := by
      rcases hstep with hs | hs <;> omega
    by_cases htot : (acc.cars.getD i StateHandler.default).compl_lap_cur
        ≤ acc.tot_no_laps
    · have htab : (lapTransCar lts acc i).laptimes i
          = Function.update (acc.laptimes i)
              (acc.cars.getD i StateHandler.default).compl_lap_cur
              (acc.cur_racetime - acc.timestep_size
                + (1 - (acc.cars.getD i StateHandler.default).get_lap_fracs.1)
                  * lts.getD i 0
                - acc.racetimes i
                    ((acc.cars.getD i StateHandler.default).compl_lap_cur - 1))
          ∧ (lapTransCar lts acc i).racetimes i
            = Function.update (acc.racetimes i)
                (acc.cars.getD i StateHandler.default).compl_lap_cur
                (acc.racetimes i
                    ((acc.cars.getD i StateHandler.default).compl_lap_cur - 1)
                  + (acc.cur_racetime - acc.timestep_size
                    + (1 - (acc.cars.getD i StateHandler.default).get_lap_fracs.1)
                      * lts.getD i 0
                    - acc.racetimes i
                        ((acc.cars.getD i StateHandler.default).compl_lap_cur - 1))) := by
        simp only [lapTransCar, StateHandler.get_compl_lap]
        rw [if_pos hnew, if_pos htot]
        split_ifs <;> simp [Function.update_same]
      obtain ⟨hlap, hrt⟩ := htab
      constructor
      · rw [hrt, Function.update_noteq (by omega)]
        exact hA
      · intro k h1 h2 h3
        rcases Nat.lt_or_ge k
            ((acc.cars.getD i StateHandler.default).compl_lap_cur) with hk | hk
        · rw [hrt, hlap, Function.update_noteq (by omega)]
          refine (hB k h1 h2 (by omega)).trans (Finset.sum_congr rfl ?_)
          intro j hj
          exact (Function.update_noteq
            (by have := (Finset.mem_Icc.mp hj).2; omega) _ _).symm
        · have hkK : k = (acc.cars.getD i StateHandler.default).compl_lap_cur :=
            le_antisymm h3 hk
          subst hkK
          rw [hrt, hlap, hK, Function.update_same]
          rw [Finset.sum_Icc_succ_top (Nat.succ_le_succ (Nat.zero_le _))]
          rw [Function.update_same]
          rw [Nat.add_sub_cancel]
          congr 1
          rcases Nat.eq_zero_or_pos
              ((acc.cars.getD i StateHandler.default).compl_lap_prev) with hp | hp
          · rw [hp, hA, Finset.Icc_eq_empty (by omega), Finset.sum_empty]
          · refine (hB _ hp (by omega) (le_refl _)).trans
              (Finset.sum_congr rfl ?_)
            intro j hj
            exact (Function.update_noteq
              (by have := (Finset.mem_Icc.mp hj).2; omega) _ _).symm
    · have htab : (lapTransCar lts acc i).laptimes i = acc.laptimes i
          ∧ (lapTransCar lts acc i).racetimes i = acc.racetimes i := by
        simp only [lapTransCar, StateHandler.get_compl_lap]
        rw [if_pos hnew, if_neg htot]
        split_ifs <;> exact ⟨rfl, rfl⟩
      obtain ⟨hlap, hrt⟩ := htab
      refine ⟨by rw [hrt]; exact hA, ?_⟩
      intro k h1 h2 h3
      rw [hrt, hlap]
      exact hB k h1 h2 (by omega)
  · have hle : (acc.cars.getD i StateHandler.default).compl_lap_cur
        ≤ (acc.cars.getD i StateHandler.default).compl_lap_prev := by
      have hx := hnew
      simp only [StateHandler.get_new_lap, decide_eq_true_eq] at hx
      omega
    have heq : lapTransCar lts acc i = acc := by
      simp only [lapTransCar]
      rw [if_neg hnew]
    rw [heq]
    exact ⟨hA, fun k h1 h2 h3 => hB k h1 h2 (le_trans h3 hle)⟩

/-- handle_lap_transitions keeps the accounting identity of every car. -/
theorem handle_acct (r : RaceT) (lts : List ℚ)
    (hstep : ∀ i, (r.cars.getD i StateHandler.default).compl_lap_cur
        = (r.cars.getD i StateHandler.default).compl_lap_prev
      ∨ (r.cars.getD i StateHandler.default).compl_lap_cur
        = (r.cars.getD i StateHandler.default).compl_lap_prev + 1)
    (hA : ∀ i, r.racetimes i 0 = 0)
    (hB : ∀ i k, 1 ≤ k → k ≤ r.tot_no_laps →
      k ≤ (r.cars.getD i StateHandler.default).compl_lap_prev →
      r.racetimes i k = ∑ j in Finset.Icc 1 k, r.laptimes i j)
    (i : ℕ) :
    (handle_lap_transitions r lts).racetimes i 0 = 0
    ∧ ∀ k, 1 ≤ k → k ≤ r.tot_no_laps →
      k ≤ (r.cars.getD i StateHandler.default).compl_lap_cur →
      (handle_lap_transitions r lts).racetimes i k
        = ∑ j in Finset.Icc 1 k, (handle_lap_transitions r lts).laptimes i j := by
  simp only [handle_lap_transitions]
  by_cases hi : i < r.cars.length
  · have hmem : i ∈ List.range r.cars.length := List.mem_range.mpr hi
    constructor
    · rw [(lapLoop_mem lts (List.range r.cars.length) _ i
        (List.nodup_range _) hmem).2.1]
      refine (lapTransCar_acct lts _ i ?_ ?_ ?_).1
      · exact hstep i
      · exact hA i
      · exact hB i
    · intro k h1 h2 h3
      rw [(lapLoop_mem lts (List.range r.cars.length) _ i
        (List.nodup_range _) hmem).2.1]
      rw [(lapLoop_mem lts (List.range r.cars.length) _ i
        (List.nodup_range _) hmem).1]
      refine (lapTransCar_acct lts _ i ?_ ?_ ?_).2 k h1 ?_ ?_
      · exact hstep i
      · exact hA i
      · exact hB i
      · exact h2
      · exact h3
  · have hmem : i ∉ List.range r.cars.length := by
      simpa [List.mem_range] using hi
    constructor
    · rw [(lapLoop_not_mem lts (List.range r.cars.length) _ i hmem).2.1]
      exact hA i
    · intro k h1 h2 h3
      exfalso
      have hdef : r.cars.getD i StateHandler.default = StateHandler.default :=
        List.getD_eq_default _ _ (by omega)
      rw [hdef] at h3
      have h0 : StateHandler.default.compl_lap_cur = 0 := rfl
      omega

/-- advanceCars preserves the car count. -/
theorem advanceCars_length (cars : List StateHandler) (lts : List ℚ)
    (dt : ℚ) : (advanceCars cars lts dt).length = cars.length := by
  simp [advanceCars]

/-- One simulate_timestep tick preserves the accounting invariant. -/
theorem tickT_AcctInv (r : RaceT) (inp : TickIn) (h : AcctInv r) :
    AcctInv (tickT r inp) := by
  have hpStep : ∀ i,
      ((adjustCars (advanceCars r.cars inp.laptimes r.timestep_size)
          inp.adjPre).getD i StateHandler.default).compl_lap_cur
        = ((adjustCars (advanceCars r.cars inp.laptimes r.timestep_size)
          inp.adjPre).getD i StateHandler.default).compl_lap_prev
      ∨ ((adjustCars (advanceCars r.cars inp.laptimes r.timestep_size)
          inp.adjPre).getD i StateHandler.default).compl_lap_cur
        = ((adjustCars (advanceCars r.cars inp.laptimes r.timestep_size)
          inp.adjPre).getD i StateHandler.default).compl_lap_prev + 1 := by
    intro i
    rw [(adjustCars_compl _ _ i).1, (adjustCars_compl _ _ i).2]
    by_cases hi : i < r.cars.length
    · rw [advCars_getD_lt _ _ _ i hi]
      obtain ⟨hp, hc⟩ := update_race_prog_compl
        (r.cars.getD i StateHandler.default) (inp.laptimes.getD i 0)
        r.timestep_size
      rw [hp]
      exact hc
    · rw [advCars_getD_ge _ _ _ i (by omega)]
      left
      rfl
  have hpA : ∀ i, r.racetimes i 0 = 0 := fun i => (h i).1
  have hpB : ∀ i k, 1 ≤ k → k ≤ r.tot_no_laps →
      k ≤ ((adjustCars (advanceCars r.cars inp.laptimes r.timestep_size)
          inp.adjPre).getD i StateHandler.default).compl_lap_prev →
      r.racetimes i k = ∑ j in Finset.Icc 1 k, r.laptimes i j := by
    intro i k h1 h2 h3
    rw [(adjustCars_compl _ _ i).2] at h3
    by_cases hi : i < r.cars.length
    · rw [advCars_getD_lt _ _ _ i hi, (update_race_prog_compl _ _ _).1] at h3
      exact (h i).2 k h1 h2 h3
    · rw [advCars_getD_ge _ _ _ i (by omega)] at h3
      exfalso
      have h0 : StateHandler.default.compl_lap_prev = 0 := rfl
      omega
  intro i
  constructor
  · exact (handle_acct
      { r with
        cur_racetime := r.cur_racetime + r.timestep_size
        cars := adjustCars (advanceCars r.cars inp.laptimes r.timestep_size)
          inp.adjPre }
      inp.laptimes hpStep hpA hpB i).1
  · intro k h1 h2 h3
    replace h2 : k ≤ (handle_lap_transitions
        { r with
          cur_racetime := r.cur_racetime + r.timestep_size
          cars := adjustCars (advanceCars r.cars inp.laptimes r.timestep_size)
            inp.adjPre }
        inp.laptimes).tot_no_laps := h2
    rw [(handle_lap_transitions_cars _ inp.laptimes).2] at h2
    replace h3 : k ≤ ((adjustCars (handle_lap_transitions
        { r with
          cur_racetime := r.cur_racetime + r.timestep_size
          cars := adjustCars (advanceCars r.cars inp.laptimes r.timestep_size)
            inp.adjPre }
        inp.laptimes).cars inp.adjPost).getD i
        StateHandler.default).compl_lap_cur := h3
    rw [(adjustCars_compl _ _ i).1,
      (handle_lap_transitions_cars _ inp.laptimes).1] at h3
    show (handle_lap_transitions
        { r with
          cur_racetime := r.cur_racetime + r.timestep_size
          cars := adjustCars (advanceCars r.cars inp.laptimes r.timestep_size)
            inp.adjPre }
        inp.laptimes).racetimes i k
      = ∑ j in Finset.Icc 1 k,
          (handle_lap_transitions
            { r with
              cur_racetime := r.cur_racetime + r.timestep_size
              cars := adjustCars
                (advanceCars r.cars inp.laptimes r.timestep_size) inp.adjPre }
            inp.laptimes).laptimes i j
    exact (handle_acct
      { r with
        cur_racetime := r.cur_racetime + r.timestep_size
        cars := adjustCars (advanceCars r.cars inp.laptimes r.timestep_size)
          inp.adjPre }
      inp.laptimes hpStep hpA hpB i).2 k h1 h2 h3

/-- One tick preserves the race distance. -/
theorem tickT_tot (r : RaceT) (inp : TickIn) :
    (tickT r inp).tot_no_laps = r.tot_no_laps :=
  (handle_lap_transitions_cars
    { r with
      cur_racetime := r.cur_racetime + r.timestep_size
      cars := adjustCars (advanceCars r.cars inp.laptimes r.timestep_size)
        inp.adjPre }
    inp.laptimes).2

/-- A run of ticks preserves the race distance. -/
theorem runTicksT_tot (inputs : List TickIn) :
    ∀ r : RaceT, (runTicksT r inputs).tot_no_laps = r.tot_no_laps := by
  induction inputs with
  | nil => exact fun r => rfl
  | cons a l ih => exact fun r => (ih (tickT r a)).trans (tickT_tot r a)

/-- The initial race state satisfies the accounting invariant. -/
theorem mkRaceT_AcctInv (dt : ℚ) (tot : ℕ) (starts : List ℚ) (L : ℚ) :
    AcctInv (mkRaceT dt tot starts L) := by
  intro i
  refine ⟨rfl, ?_⟩
  intro k h1 h2 h3
  exfalso
  have hz : ((mkRaceT dt tot starts L).cars.getD i
      StateHandler.default).compl_lap_cur = 0 := by
    simp only [mkRaceT]
    rw [List.getD_eq_getElem?_getD, List.getElem?_map]
    cases starts[i]? <;> rfl
  omega

/-- Every run of ticks preserves the accounting invariant. -/
theorem runTicksT_AcctInv (inputs : List TickIn) :
    ∀ r : RaceT, AcctInv r → AcctInv (runTicksT r inputs) := by
  induction inputs with
  | nil => exact fun r h => h
  | cons a l ih => exact fun r h => ih (tickT r a) (tickT_AcctInv r a h)

/-- C6: after any run of simulate_timestep ticks from the initial race
state, every car's race-time row satisfies the exact accounting identity:
entry 0 is zero, and for every lap k between 1 and tot_no_laps that the
car has completed, racetimes[i][k] equals the sum of laptimes[i][1..k]
exactly as computed, not merely within an epsilon. -/
theorem C6_racetime_accounting (dt : ℚ) (tot : ℕ) (starts : List ℚ)
    (track_length : ℚ) (inputs : List TickIn) (i k : ℕ)
    (h1 : 1 ≤ k) (h2 : k ≤ tot)
    (h3 : k ≤ ((runTicksT (mkRaceT dt tot starts track_length)
      inputs).cars.getD i StateHandler.default).compl_lap_cur) :
    (runTicksT (mkRaceT dt tot starts track_length) inputs).racetimes i 0 = 0
    ∧ (runTicksT (mkRaceT dt tot starts track_length) inputs).racetimes i k
      = ∑ j in Finset.Icc 1 k,
          (runTicksT (mkRaceT dt tot starts track_length)
            inputs).laptimes i j := by
  have hinv := runTicksT_AcctInv inputs (mkRaceT dt tot starts track_length)
    (mkRaceT_AcctInv dt tot starts track_length)
  refine ⟨(hinv i).1, (hinv i).2 k h1 ?_ h3⟩
  rw [runTicksT_tot]
  exact h2

/-- Witness: a one-car race over one lap of 1000 m with lap time 1 s and
time step 1 s completes its lap in the single tick; the recorded race
time table satisfies the accounting identity. -/
theorem C6_racetime_accounting_witness :
    1 ≤ ((runTicksT (mkRaceT 1 1 [0] 1000)
        [(⟨[1], [none], [none]⟩ : TickIn)]).cars.getD
        0 StateHandler.default).compl_lap_cur
    ∧ ((runTicksT (mkRaceT 1 1 [0] 1000)
        [(⟨[1], [none], [none]⟩ : TickIn)]).racetimes
          0 0 = 0
      ∧ (runTicksT (mkRaceT 1 1 [0] 1000)
          [(⟨[1], [none], [none]⟩ : TickIn)]).racetimes
            0 1
        = ∑ j in Finset.Icc 1 1,
            (runTicksT (mkRaceT 1 1 [0] 1000)
              [(⟨[1], [none], [none]⟩ : TickIn)]).laptimes 0 j) := by
  have hc : 1 ≤ ((runTicksT (mkRaceT 1 1 [0] 1000)
      [(⟨[1], [none], [none]⟩ : TickIn)]).cars.getD
      0 StateHandler.default).compl_lap_cur := by
    norm_num [runTicksT, tickT, advanceCars, adjustCars,
      handle_lap_transitions, lapTransLeader, lapTransCar, mkRaceT,
      StateHandler.update_race_prog, StateHandler.get_new_lap,
      StateHandler.get_compl_lap, StateHandler.get_lap_fracs,
      StateHandler.default, List.range_succ]
  exact ⟨hc, C6_racetime_accounting 1 1 [0] 1000
    [(⟨[1], [none], [none]⟩ : TickIn)] 0 1
    (le_refl 1) (le_refl 1) hc⟩

/-- Reading an element of a concatenation inside the first part. -/
theorem getD_append_lt {α : Type} (l1 l2 : List α) (n : ℕ) (d : α)
    (h : n < l1.length) : (l1 ++ l2).getD n d = l1.getD n d := by
  rw [List.getD_eq_getElem?_getD, List.getD_eq_getElem?_getD,
    List.getElem?_append, if_pos h]

/-- Reading the appended element of a concatenation. -/
theorem getD_concat_length {α : Type} (l : List α) (a d : α) :
    (l ++ [a]).getD l.length d = a := by
  rw [List.getD_eq_getElem?_getD, List.getElem?_concat_length]
  rfl

/-- A short take of a concatenation stays in the first part. -/
theorem take_concat_le {α : Type} (l : List α) (a : α) (m : ℕ)
    (h : m ≤ l.length) : (l ++ [a]).take m = l.take m :=
  List.take_append_of_le_length h

/-- Taking the full length of a concatenation. -/
theorem take_concat_all {α : Type} (l : List α) (a : α) :
    (l ++ [a]).take (l.length + 1) = l ++ [a] :=
  List.take_of_length_le (by simp)

/-- Taking up to the first part of a concatenation. -/
theorem take_concat_len {α : Type} (l : List α) (a : α) :
    (l ++ [a]).take l.length = l := by
  rw [List.take_append_of_le_length (le_refl _), List.take_length]

/-- A run over a concatenation is the run over the prefix followed by one
tick. -/
theorem runTicksT_concat (r : RaceT) (l : List TickIn) (a : TickIn) :
    runTicksT r (l ++ [a]) = tickT (runTicksT r l) a := by
  simp [runTicksT, List.foldl_append]

/-- The leader-lap scan of handle_lap_transitions never lowers the
leader lap. -/
theorem lapTransLeader_ge (r : RaceT) : r.cur_lap_leader ≤ lapTransLeader r := by
  have hgen : ∀ (l : List StateHandler) (b : ℕ),
      b ≤ l.foldl (fun ld c =>
        if c.get_compl_lap ≥ ld then c.get_compl_lap + 1 else ld) b := by
    intro l
    induction l with
    | nil => intro b; exact le_refl b
    | cons c l ih =>
        intro b
        rw [List.foldl_cons]
        refine le_trans ?_ (ih _)
        split_ifs with hc
        · omega
        · exact le_refl b
  exact hgen r.cars r.cur_lap_leader

/-- The leader lap after a tick is the leader-lap scan of the advanced
state. -/
theorem tickT_leader (r : RaceT) (inp : TickIn) :
    (tickT r inp).cur_lap_leader
      = lapTransLeader
          { r with
            cur_racetime := r.cur_racetime + r.timestep_size
            cars := adjustCars (advanceCars r.cars inp.laptimes r.timestep_size)
              inp.adjPre } := by
  show (handle_lap_transitions
      { r with
        cur_racetime := r.cur_racetime + r.timestep_size
        cars := adjustCars (advanceCars r.cars inp.laptimes r.timestep_size)
          inp.adjPre }
      inp.laptimes).cur_lap_leader = _
  simp only [handle_lap_transitions]
  exact (lapLoop_const inp.laptimes (List.range _) _).2.2.2.2.2

/-- The flag after a tick follows the chequered rule: it flips to C
exactly when the updated leader lap exceeds the race distance, and is
otherwise kept. -/
theorem tickT_flag (r : RaceT) (inp : TickIn) :
    (tickT r inp).flag_state
      = if (tickT r inp).cur_lap_leader > r.tot_no_laps
          ∧ ¬r.flag_state = FlagState.C
        then FlagState.C else r.flag_state := by
  rw [tickT_leader]
  show (handle_lap_transitions
      { r with
        cur_racetime := r.cur_racetime + r.timestep_size
        cars := adjustCars (advanceCars r.cars inp.laptimes r.timestep_size)
          inp.adjPre }
      inp.laptimes).flag_state = _
  simp only [handle_lap_transitions]
  exact (lapLoop_const inp.laptimes (List.range _) _).2.2.2.2.1

/-- A tick never lowers the leader lap. -/
theorem tickT_leader_ge (r : RaceT) (inp : TickIn) :
    r.cur_lap_leader ≤ (tickT r inp).cur_lap_leader := by
  rw [tickT_leader]
  exact lapTransLeader_ge
    { r with
      cur_racetime := r.cur_racetime + r.timestep_size
      cars := adjustCars (advanceCars r.cars inp.laptimes r.timestep_size)
        inp.adjPre }

/-- A tick preserves the characterization: the flag is chequered exactly
when the leader lap exceeds the race distance. -/
theorem tickT_flag_iff (r : RaceT) (inp : TickIn)
    (h : r.flag_state = FlagState.C ↔ r.tot_no_laps < r.cur_lap_leader) :
    (tickT r inp).flag_state = FlagState.C
      ↔ r.tot_no_laps < (tickT r inp).cur_lap_leader := by
  have hmono := tickT_leader_ge r inp
  rw [tickT_flag]
  split_ifs with hc
  · exact iff_of_true rfl hc.1
  · constructor
    · intro hf
      exact lt_of_lt_of_le (h.mp hf) hmono
    · intro hl
      by_contra hf
      exact hc ⟨hl, hf⟩

/-- A run of ticks preserves the chequered-flag characterization. -/
theorem runTicksT_flag_iff (inputs : List TickIn) :
    ∀ r : RaceT,
    (r.flag_state = FlagState.C ↔ r.tot_no_laps < r.cur_lap_leader) →
    ((runTicksT r inputs).flag_state = FlagState.C
      ↔ (runTicksT r inputs).tot_no_laps
        < (runTicksT r inputs).cur_lap_leader) := by
  induction inputs with
  | nil => exact fun r h => h
  | cons a l ih =>
      intro r h
      refine ih (tickT r a) ?_
      have h2 := tickT_flag_iff r a h
      rwa [← tickT_tot r a] at h2

/-- A run of ticks never lowers the leader lap. -/
theorem runTicksT_leader_ge (inputs : List TickIn) :
    ∀ r : RaceT, r.cur_lap_leader ≤ (runTicksT r inputs).cur_lap_leader := by
  induction inputs with
  | nil => exact fun r => le_refl _
  | cons a l ih =>
      exact fun r => le_trans (tickT_leader_ge r a) (ih (tickT r a))

/-- The initial race state satisfies the chequered-flag characterization
whenever the race has at least one lap. -/
theorem mkRaceT_flag_iff (dt : ℚ) (tot : ℕ) (starts : List ℚ) (L : ℚ)
    (htot : 1 ≤ tot) :
    ((mkRaceT dt tot starts L).flag_state = FlagState.C
      ↔ (mkRaceT dt tot starts L).tot_no_laps
        < (mkRaceT dt tot starts L).cur_lap_leader) := by
  constructor
  · intro hf
    exact absurd hf (by simp [mkRaceT])
  · intro hl
    exfalso
    have h1 : (mkRaceT dt tot starts L).cur_lap_leader = 1 := rfl
    have h2 : (mkRaceT dt tot starts L).tot_no_laps = tot := rfl
    omega

/-- One lap-transition step sets its car's finished entry exactly on a
finish-line crossing under the chequered flag, and otherwise keeps it. -/
theorem lapTransCar_finished (lts : List ℚ) (acc : RaceT) (i : ℕ) :
    ((lapTransCar lts acc i).race_finished i = true
      ↔ (acc.race_finished i = true
        ∨ ((acc.cars.getD i StateHandler.default).get_new_lap = true
          ∧ acc.flag_state = FlagState.C))) := by
  simp only [lapTransCar]
  by_cases h1 : (acc.cars.getD i StateHandler.default).get_new_lap = true
  · rw [if_pos h1]
    by_cases hf : acc.flag_state = FlagState.C
    · rw [if_pos hf]
      refine iff_of_true ?_ (Or.inr ⟨h1, hf⟩)
      exact Function.update_same _ _ _
    · rw [if_neg hf]
      constructor
      · intro h
        left
        split_ifs at h
        · exact h
        · exact h
      · rintro (h | ⟨-, hfc⟩)
        · split_ifs
          · exact h
          · exact h
        · exact absurd hfc hf
  · rw [if_neg h1]
    constructor
    · intro h
      exact Or.inl h
    · rintro (h | ⟨hn, -⟩)
      · exact h
      · exact absurd hn h1

/-- A tick sets the finished entry of a gridded car exactly on a crossing
under the (already updated) chequered flag. -/
theorem tickT_finished_lt (r : RaceT) (inp : TickIn) (i : ℕ)
    (hi : i < r.cars.length) :
    ((tickT r inp).race_finished i = true
      ↔ (r.race_finished i = true
        ∨ (((adjustCars (advanceCars r.cars inp.laptimes r.timestep_size)
            inp.adjPre).getD i StateHandler.default).get_new_lap = true
          ∧ (tickT r inp).flag_state = FlagState.C))) := by
  have hlen : (adjustCars (advanceCars r.cars inp.laptimes r.timestep_size)
      inp.adjPre).length = r.cars.length := by
    rw [adjustCars_length, advanceCars_length]
  have e1 : (tickT r inp).race_finished
      = (handle_lap_transitions
          { r with
            cur_racetime := r.cur_racetime + r.timestep_size
            cars := adjustCars (advanceCars r.cars inp.laptimes r.timestep_size)
              inp.adjPre }
          inp.laptimes).race_finished := rfl
  have e2 : (tickT r inp).flag_state
      = (handle_lap_transitions
          { r with
            cur_racetime := r.cur_racetime + r.timestep_size
            cars := adjustCars (advanceCars r.cars inp.laptimes r.timestep_size)
              inp.adjPre }
          inp.laptimes).flag_state := rfl
  rw [e1, e2]
  simp only [handle_lap_transitions]
  have hmem : i ∈ List.range ((adjustCars (advanceCars r.cars inp.laptimes
      r.timestep_size) inp.adjPre).length) := by
    rw [hlen]
    exact List.mem_range.mpr hi
  rw [(lapLoop_const inp.laptimes (List.range _) _).2.2.2.2.1]
  rw [(lapLoop_mem inp.laptimes _ _ i (List.nodup_range _) hmem).2.2]
  rw [lapTransCar_finished]

/-- A tick leaves the finished entry of an index beyond the grid
untouched. -/
theorem tickT_finished_ge (r : RaceT) (inp : TickIn) (i : ℕ)
    (hi : r.cars.length ≤ i) :
    (tickT r inp).race_finished i = r.race_finished i := by
  have hlen : (adjustCars (advanceCars r.cars inp.laptimes r.timestep_size)
      inp.adjPre).length = r.cars.length := by
    rw [adjustCars_length, advanceCars_length]
  have e1 : (tickT r inp).race_finished
      = (handle_lap_transitions
          { r with
            cur_racetime := r.cur_racetime + r.timestep_size
            cars := adjustCars (advanceCars r.cars inp.laptimes r.timestep_size)
              inp.adjPre }
          inp.laptimes).race_finished := rfl
  rw [e1]
  simp only [handle_lap_transitions]
  have hmem : i ∉ List.range ((adjustCars (advanceCars r.cars inp.laptimes
      r.timestep_size) inp.adjPre).length) := by
    rw [hlen]
    simp only [List.mem_range]
    omega
  rw [(lapLoop_not_mem inp.laptimes _ _ i hmem).2.2]

/-- A tick sets the finished entry exactly on a crossing under the
updated chequered flag. -/
theorem tickT_finished_iff (r : RaceT) (inp : TickIn) (i : ℕ) :
    ((tickT r inp).race_finished i = true
      ↔ (r.race_finished i = true
        ∨ (crossesLine r inp i
          ∧ (tickT r inp).flag_state = FlagState.C))) := by
  by_cases hi : i < r.cars.length
  · rw [tickT_finished_lt r inp i hi]
    simp [crossesLine, hi]
  · rw [tickT_finished_ge r inp i (by omega)]
    simp [crossesLine, hi]

/-- Over a whole run, a car's finished entry is true exactly when some
past tick both crossed the finish line with that car and carried the
chequered flag. -/
theorem runTicksT_finished_iff (r0 : RaceT) (inputs : List TickIn) (i : ℕ)
    (h0 : r0.race_finished i = false) :
    ((runTicksT r0 inputs).race_finished i = true
      ↔ ∃ m, m < inputs.length
          ∧ crossesLine (runTicksT r0 (inputs.take m))
              (inputs.getD m ⟨[], [], []⟩) i
          ∧ (runTicksT r0 (inputs.take (m + 1))).flag_state
            = FlagState.C) := by
  induction inputs using List.reverseRecOn with
  | nil => simp [runTicksT, h0]
  | append_singleton l a ih =>
      rw [runTicksT_concat, tickT_finished_iff, ih]
      constructor
      · rintro (⟨m, hm, hc, hf⟩ | ⟨hc, hf⟩)
        · refine ⟨m, ?_, ?_, ?_⟩
          · simp only [List.length_append, List.length_singleton]
            omega
          · rw [take_concat_le l a m (by omega),
              getD_append_lt l [a] m _ hm]
            exact hc
          · rw [take_concat_le l a (m + 1) (by omega)]
            exact hf
        · refine ⟨l.length, by simp, ?_, ?_⟩
          · rw [take_concat_len, getD_concat_length]
            exact hc
          · rw [take_concat_all, runTicksT_concat]
            exact hf
      · rintro ⟨m, hm, hc, hf⟩
        have hm2 : m < l.length + 1 := by simpa using hm
        rcases Nat.lt_or_ge m l.length with hml | hml
        · left
          refine ⟨m, hml, ?_, ?_⟩
          · rw [take_concat_le l a m (by omega),
              getD_append_lt l [a] m _ hml] at hc
            exact hc
          · rw [take_concat_le l a (m + 1) (by omega)] at hf
            exact hf
        · have hme : m = l.length := by omega
          subst hme
          right
          constructor
          · rw [take_concat_len, getD_concat_length] at hc
            exact hc
          · rw [take_concat_all, runTicksT_concat] at hf
            exact hf

/-- C8: over any run of simulate_timestep ticks from the initial race
state of a race with at least one lap, (1) after every prefix of ticks
the flag is Chequered exactly when the leader lap exceeds tot_no_laps —
so it flips exactly on the first tick in which some car's completed lap
pushes the leader past the race distance; (2) the leader lap never
decreases, so the flag never changes away from Chequered; (3) a car's
race_finished entry is true exactly when some past tick both crossed the
finish line with that car and already carried the chequered flag of the
same tick (the flag update precedes the per-car loop). -/
theorem C8_chequered_flag_and_finish (dt : ℚ) (tot : ℕ) (starts : List ℚ)
    (track_length : ℚ) (inputs : List TickIn) (htot : 1 ≤ tot) :
    (∀ m : ℕ,
      ((runTicksT (mkRaceT dt tot starts track_length)
          (inputs.take m)).flag_state = FlagState.C
        ↔ tot < (runTicksT (mkRaceT dt tot starts track_length)
            (inputs.take m)).cur_lap_leader))
    ∧ (∀ m m2 : ℕ, m ≤ m2 →
        (runTicksT (mkRaceT dt tot starts track_length)
            (inputs.take m)).cur_lap_leader
          ≤ (runTicksT (mkRaceT dt tot starts track_length)
              (inputs.take m2)).cur_lap_leader)
    ∧ ∀ i : ℕ,
        ((runTicksT (mkRaceT dt tot starts track_length)
            inputs).race_finished i = true
          ↔ ∃ m, m < inputs.length
              ∧ crossesLine (runTicksT (mkRaceT dt tot starts track_length)
                  (inputs.take m)) (inputs.getD m ⟨[], [], []⟩) i
              ∧ (runTicksT (mkRaceT dt tot starts track_length)
                  (inputs.take (m + 1))).flag_state = FlagState.C) := by
  refine ⟨?_, ?_, ?_⟩
  · intro m
    have h := runTicksT_flag_iff (inputs.take m)
      (mkRaceT dt tot starts track_length)
      (mkRaceT_flag_iff dt tot starts track_length htot)
    have h2 : (mkRaceT dt tot starts track_length).tot_no_laps = tot := rfl
    rw [runTicksT_tot, h2] at h
    exact h
  · have hstep : ∀ m : ℕ,
        (runTicksT (mkRaceT dt tot starts track_length)
            (inputs.take m)).cur_lap_leader
          ≤ (runTicksT (mkRaceT dt tot starts track_length)
              (inputs.take (m + 1))).cur_lap_leader := by
      intro m
      rw [List.take_succ]
      cases hg : inputs[m]? with
      | none =>
          rw [Option.toList, List.append_nil]
      | some a =>
          rw [Option.toList, runTicksT_concat]
          exact tickT_leader_ge _ a
    have hd : ∀ d ms : ℕ,
        (runTicksT (mkRaceT dt tot starts track_length)
            (inputs.take ms)).cur_lap_leader
          ≤ (runTicksT (mkRaceT dt tot starts track_length)
              (inputs.take (ms + d))).cur_lap_leader := by
      intro d
      induction d with
      | zero => intro ms; exact le_refl _
      | succ d ih =>
          intro ms
          have h3 : ms + (d + 1) = (ms + d) + 1 := by omega
          rw [h3]
          exact le_trans (ih ms) (hstep (ms + d))
    intro m m2 hmm
    have h4 : m2 = m + (m2 - m) := by omega
    rw [h4]
    exact hd (m2 - m) m
  · intro i
    exact runTicksT_finished_iff (mkRaceT dt tot starts track_length)
      inputs i rfl

/-- Witness: the one-lap single-car race applied to the empty tick list
discharges the one-lap hypothesis of the chequered-flag theorem. -/
theorem C8_chequered_flag_and_finish_witness :
    1 ≤ 1
    ∧ ((∀ m : ℕ,
        ((runTicksT (mkRaceT 1 1 [(0 : ℚ)] 1000)
            (([] : List TickIn).take m)).flag_state = FlagState.C
          ↔ 1 < (runTicksT (mkRaceT 1 1 [(0 : ℚ)] 1000)
              (([] : List TickIn).take m)).cur_lap_leader))
      ∧ (∀ m m2 : ℕ, m ≤ m2 →
          (runTicksT (mkRaceT 1 1 [(0 : ℚ)] 1000)
              (([] : List TickIn).take m)).cur_lap_leader
            ≤ (runTicksT (mkRaceT 1 1 [(0 : ℚ)] 1000)
                (([] : List TickIn).take m2)).cur_lap_leader)
      ∧ ∀ i : ℕ,
          ((runTicksT (mkRaceT 1 1 [(0 : ℚ)] 1000)
              ([] : List TickIn)).race_finished i = true
            ↔ ∃ m, m < ([] : List TickIn).length
                ∧ crossesLine (runTicksT (mkRaceT 1 1 [(0 : ℚ)] 1000)
                    (([] : List TickIn).take m))
                    (([] : List TickIn).getD m ⟨[], [], []⟩) i
                ∧ (runTicksT (mkRaceT 1 1 [(0 : ℚ)] 1000)
                    (([] : List TickIn).take (m + 1))).flag_state
                  = FlagState.C)) :=
  ⟨le_refl 1, C8_chequered_flag_and_finish 1 1 [(0 : ℚ)] 1000 [] (le_refl 1)⟩

end RaceSim
